import Mathlib

/-!
Verification of the Next.js route-classification and static-materialization
layer (`src/frameworks/next/index.ts`).  The manifests and the pure decision
logic of `build` and `ɵcodegenPublicDirectory` are shallowly embedded below;
helpers that live in `frameworks/next/utils.ts` (absent from the sources) are
either abstracted as parameters (`Helpers`) or, where a claim is about the
helper itself, modelled from the spec.
-/

namespace NextAdapter

/-- The `fallback` field of a `dynamicRoutes` entry of the prerender
manifest: `false`, `true` or the string `"blocking"`. -/
inductive FallbackValue
  | fbFalse
  | fbTrue
  | blocking
deriving DecidableEq, Repr

/-- One value of `prerenderManifest.routes`.  `initialRevalidateSeconds` is
`false | number` in the source; `none` models `false`.  `dataRoute` is
`string | null`; the empty string models both `null` and `""` (the code only
ever tests it for truthiness and joins it into a path). -/
structure PrerenderRoute where
  srcRoute : Option String
  initialRevalidateSeconds : Option Nat
  dataRoute : String
  experimentalPPR : Bool
  prefetchDataRoute : String
deriving DecidableEq, Repr

/-- One value of `prerenderManifest.dynamicRoutes`. -/
structure DynamicRoute where
  fallback : FallbackValue
deriving DecidableEq, Repr

/-- The prerender manifest.  JSON objects are modelled as association lists
in key-insertion order. -/
structure PrerenderManifestT where
  routes : List (String × PrerenderRoute)
  dynamicRoutes : List (String × DynamicRoute)
deriving DecidableEq, Repr

/-- A single key/value pair of a header rule. -/
structure NextHeaderKV where
  key : String
  value : String
deriving DecidableEq, Repr

/-- A header rule of the routes manifest.  `has` records the presence of
`has`/`missing` request-matching conditions (inspected only by the
compatibility predicates, which are outside the sources). -/
structure Header where
  source : String
  headers : List NextHeaderKV
  regex : String
  has : Bool
deriving DecidableEq, Repr

/-- A redirect rule of the routes manifest.  `internal` marks
framework-generated redirects (`it.internal` in the source). -/
structure Redirect where
  source : String
  destination : String
  statusCode : Nat
  regex : String
  internal : Bool
  has : Bool
deriving DecidableEq, Repr

/-- A rewrite rule of the routes manifest. -/
structure Rewrite where
  source : String
  destination : String
  regex : String
  has : Bool
deriving DecidableEq, Repr

/-- The `rewrites` field of the routes manifest: either a plain array or the
phased `{beforeFiles, afterFiles, fallback}` object. -/
inductive NextRewrites
  | arr (rules : List Rewrite)
  | obj (beforeFiles afterFiles fallback : List Rewrite)
deriving DecidableEq, Repr

/-- A per-domain locale mapping of the i18n config (`DomainLocale`).
`locales` is optional in the source type. -/
structure DomainLocale where
  domain : String
  defaultLocale : String
  locales : Option (List String)
deriving DecidableEq, Repr

/-- The i18n block of the Next.js config / routes manifest. -/
structure I18nConfig where
  locales : List String
  defaultLocale : String
  domains : Option (List DomainLocale)
deriving DecidableEq, Repr

/-- The routes manifest.  The source destructures with defaults
(`headers = []`, `redirects = []`, `rewrites = []`), so the fields here hold
the already-defaulted values. -/
structure RoutesManifestT where
  headers : List Header
  redirects : List Redirect
  rewrites : NextRewrites
  i18n : Option I18nConfig
deriving DecidableEq, Repr

/-- The server-reference (server-action) manifest.  Its contents are only
ever passed to the helper `getRoutesWithServerAction`, which is outside the
sources, so the two environment maps are modelled shallowly. -/
structure ActionManifest where
  node : List (String × String)
  edge : List (String × String)
  encryptionKey : String
deriving DecidableEq, Repr

/-- A Hosting header produced by the classification pass. -/
structure HostingHeaderWithSource where
  source : String
  headers : List NextHeaderKV
deriving DecidableEq, Repr

/-- A Hosting redirect produced by the classification pass. -/
structure HostingRedirect where
  source : String
  destination : String
  type : Nat
deriving DecidableEq, Repr

/-- A Hosting rewrite produced by the classification pass. -/
structure HostingRewrite where
  source : String
  destination : String
deriving DecidableEq, Repr

/-- The result of `getAppMetadataFromMetaFiles` (a helper outside the
sources): extra headers read from meta files plus the routes using partial
pre-rendering. -/
structure AppMetadata where
  headers : List HostingHeaderWithSource
  pprRoutes : List String
deriving DecidableEq, Repr

/-- The value returned by `build` (§6 output contract). -/
structure BuildResult where
  wantsBackend : Bool
  headers : List HostingHeaderWithSource
  redirects : List HostingRedirect
  rewrites : List HostingRewrite
  trailingSlash : Bool
  i18n : Bool
  baseUrl : String
deriving DecidableEq, Repr

/-- The elements of `reasonsForBackend`.  The source uses strings; every
`add` site uses a distinct literal text, so the strings are in one-to-one
correspondence with these constructors. -/
inductive Reason
  | middleware
  | imageOptimization
  | useOfFallback (key : String)
  | useOfRevalidate (srcRoute : Option String)
  | nonStaticRoute (key : String)
  | routeWithPPR (route : String)
  | nonStaticComponent (key : String)
  | routeWithServerAction (key : String)
  | advancedHeaders
  | advancedRedirects
  | advancedRewrites
deriving DecidableEq, Repr

/-- JavaScript truthiness of `initialRevalidateSeconds : false | number`
(`none` models `false`; the number `0` is falsy). -/
def revalidateTruthy : Option Nat → Bool
  | none => false
  | some n => n != 0

/-- `Set.add` on the insertion-ordered reason set: append if absent. -/
def setAdd (s : List Reason) (r : Reason) : List Reason :=
  if r ∈ s then s else s ++ [r]

/-- Splitting a string at `/` (model of JavaScript `path.split("/")`,
structural so that the kernel can evaluate it). -/
def splitSlashChars : List Char → List Char → List String
  | [], acc => [⟨acc.reverse⟩]
  | '/' :: rest, acc => ⟨acc.reverse⟩ :: splitSlashChars rest []
  | c :: rest, acc => splitSlashChars rest (c :: acc)

/-- The non-empty `/`-separated components of a path string. -/
def splitSlash (s : String) : List String :=
  (splitSlashChars s.data []).filter (fun x => x ≠ "")

/-- Joining path fragments with `/` between them. -/
def joinWithSlash : List String → String
  | [] => ""
  | [x] => x
  | x :: rest => x ++ "/" ++ joinWithSlash rest

/-- Model of Node's `path.join`: fragments are split at `/`, empty components
dropped, and the rest joined with single separators.  (Leading-slash
absoluteness and `..` resolution are not modelled; both sides of every
comparison below go through the same function.) -/
def jsJoin (parts : List String) : String :=
  joinWithSlash ((parts.map splitSlash).flatten)

/-- Model of Node's `path.basename`: the last `/`-separated component. -/
def basename (s : String) : String :=
  ((splitSlashChars s.data []).getLast?).getD s

/-- Whether `s` ends with `suf` (structural model of `String.endsWith`). -/
def strEndsWith (s suf : String) : Bool :=
  List.isSuffixOf suf.data s.data

/-- Modelled from the spec: the fixed locale-root segment (`I18N_ROOT` of
`frameworks/constants.ts`, absent from the sources; §4.4 "a fixed
locale-root segment").  Only its fixedness matters below. -/
def I18N_ROOT : String := "_i18n"

/-- Modelled from the spec: the set of pattern characters whose escaping is
redundant in the target pattern syntax (§4.1: escaping "introduced by the
framework's pattern compiler that is redundant once re-expressed in the
target pattern syntax" — the path-to-regexp metacharacters). -/
def escapableChars : List Char := ['(', ')', '{', '}', ':', '+', '?', '*']

/-- Modelled from the spec: `cleanEscapedChars` (frameworks/next/utils.ts,
absent from the sources) removes a backslash escaping one of the redundant
pattern characters, scanning left to right without overlap (the semantics of
a global regex replace of backslash-plus-metacharacter by the
metacharacter). -/
def cleanEscapedCharsAux : List Char → List Char
  | [] => []
  | '\\' :: c :: rest =>
    if escapableChars.contains c then c :: cleanEscapedCharsAux rest
    else '\\' :: cleanEscapedCharsAux (c :: rest)
  | c :: rest => c :: cleanEscapedCharsAux rest

/-- String version of `cleanEscapedCharsAux`. -/
def cleanEscapedChars (s : String) : String :=
  ⟨cleanEscapedCharsAux s.data⟩

/-- Whether a character list contains no two consecutive backslashes. -/
def noDoubleBackslash : List Char → Bool
  | '\\' :: '\\' :: _ => false
  | _ :: rest => noDoubleBackslash rest
  | [] => true

/-- Whether a character list is a fixed point of `cleanEscapedCharsAux`:
no backslash immediately followed by an escapable character. -/
def cleanFixed : List Char → Bool
  | '\\' :: c :: rest => !escapableChars.contains c && cleanFixed (c :: rest)
  | _ :: rest => cleanFixed rest
  | [] => true

/-- The helper functions imported by `frameworks/next/index.ts` from
`frameworks/next/utils.ts` and the hosting API, none of which are among the
sources.  They are abstracted as parameters of the embedded pipeline;
`regexTest pattern input` models `new RegExp(pattern).test`-style matching
(`input.match(regex)` truthiness). -/
structure Helpers where
  cleanI18nHeader : Header → Header
  cleanI18nRedirect : Redirect → Redirect
  cleanI18nRewrite : Rewrite → Rewrite
  isHeaderSupportedByHosting : Header → Bool
  isRedirectSupportedByHosting : Redirect → Bool
  isRewriteSupportedByHosting : Rewrite → Bool
  getNonStaticRoutes : List (String × String) → List String → List String → List String
  getNonStaticServerComponents :
    List (String × String) → List (String × String) → List String → List String → List String
  getRoutesWithServerAction : ActionManifest → List (String × String) → List String
  regexTest : String → String → Bool

/-- Modelled from the spec: `getNextjsRewritesToUse`
(frameworks/next/utils.ts, absent from the sources).  Per §4.3 and the call
sites, the rewrite rules eligible for Hosting translation are the whole list
in the array form and the `beforeFiles` phase in the phased form (the
`afterFiles`/`fallback` phases are checked separately by the caller). -/
def getNextjsRewritesToUse : NextRewrites → List Rewrite
  | .arr rules => rules
  | .obj beforeFiles _ _ => beforeFiles

/-- The inputs of the classification part of `build` (everything after the
spawned `next build` and the manifest reads).  `usingMiddleware` and
`usingImageOptimization` are the results of the two boolean helpers;
`appMetadata` is the result of `getAppMetadataFromMetaFiles`;
`hasStaticAppNotFound` the result of `hasStaticAppNotFoundComponent`.
`none` for an optional manifest models a failed (caught) read. -/
structure BuildInput where
  usingMiddleware : Bool
  usingImageOptimization : Bool
  prerenderManifest : PrerenderManifestT
  pagesManifest : List (String × String)
  routesManifest : RoutesManifestT
  appPathsManifest : Option (List (String × String))
  appPathRoutesManifest : Option (List (String × String))
  serverReferenceManifest : Option ActionManifest
  appMetadata : AppMetadata
  hasStaticAppNotFound : Bool
  trailingSlash : Bool
  baseUrl : String

/-- `Object.keys(prerenderManifest.routes)`. -/
def prerenderedRouteKeys (inp : BuildInput) : List String :=
  inp.prerenderManifest.routes.map Prod.fst

/-- `Object.keys(prerenderManifest.dynamicRoutes)`. -/
def dynamicRouteKeys (inp : BuildInput) : List String :=
  inp.prerenderManifest.dynamicRoutes.map Prod.fst

/-- The `use of fallback` reasons: one per `dynamicRoutes` entry whose
`fallback` is not `false`. -/
def fallbackReasons (pm : PrerenderManifestT) : List Reason :=
  (pm.dynamicRoutes.filter (fun kv => kv.2.fallback != FallbackValue.fbFalse)).map
    (fun kv => Reason.useOfFallback kv.1)

/-- The `use of revalidate` reasons: one per `routes` entry whose
`initialRevalidateSeconds` is truthy, naming the entry's `srcRoute`. -/
def revalidateReasons (pm : PrerenderManifestT) : List Reason :=
  (pm.routes.filter (fun kv => revalidateTruthy kv.2.initialRevalidateSeconds)).map
    (fun kv => Reason.useOfRevalidate kv.2.srcRoute)

/-- The `non-static route` reasons from `getNonStaticRoutes`. -/
def nonStaticRouteReasons (h : Helpers) (inp : BuildInput) : List Reason :=
  (h.getNonStaticRoutes inp.pagesManifest (prerenderedRouteKeys inp) (dynamicRouteKeys inp)).map
    Reason.nonStaticRoute

/-- `nextJsHeaders.map(cleanI18n).every(isHeaderSupportedByHosting)`. -/
def everyHeaderSupported (h : Helpers) (rm : RoutesManifestT) : Bool :=
  (rm.headers.map h.cleanI18nHeader).all h.isHeaderSupportedByHosting

/-- `nextJsRedirects.filter(it => !it.internal).every(isRedirectSupportedByHosting)`. -/
def everyRedirectSupported (h : Helpers) (rm : RoutesManifestT) : Bool :=
  (rm.redirects.filter (fun r => !r.internal)).all h.isRedirectSupportedByHosting

/-- The check `!Array.isArray(nextJsRewrites) && (nextJsRewrites.afterFiles?.length
|| nextJsRewrites.fallback?.length)` guarding the first `advanced rewrites` add. -/
def phasedRewritesPresent : NextRewrites → Bool
  | .arr _ => false
  | .obj _ afterFiles fallback => afterFiles.length != 0 || fallback.length != 0

/-- `nextJsRewritesToUse.every(isRewriteSupportedByHosting)`. -/
def everyRewriteSupported (h : Helpers) (rm : RoutesManifestT) : Bool :=
  (getNextjsRewritesToUse rm.rewrites).all h.isRewriteSupportedByHosting

/-- The unrendered server components after the synthetic not-found exception:
the result of `getNonStaticServerComponents` minus the `/_not-found` key when
a static not-found copy exists on disk. -/
def unrenderedServerComponentsOf (h : Helpers) (inp : BuildInput)
    (apm aprm : List (String × String)) : List String :=
  let u := h.getNonStaticServerComponents apm aprm (prerenderedRouteKeys inp) (dynamicRouteKeys inp)
  match (["/_not-found", "/_not-found/page"].find? (fun k => u.contains k)) with
  | some k => if inp.hasStaticAppNotFound then u.filter (fun x => x ≠ k) else u
  | none => u

/-- The reasons contributed by the `if (appPathRoutesManifest)` block:
partial-pre-rendering routes, non-static server components (when the
app-paths manifest was read) and server-action routes (when the
server-reference manifest was read). -/
def appPathReasonsList (h : Helpers) (inp : BuildInput) : List Reason :=
  match inp.appPathRoutesManifest with
  | none => []
  | some aprm =>
    (inp.appMetadata.pprRoutes.map Reason.routeWithPPR)
    ++ (match inp.appPathsManifest with
        | some apm => (unrenderedServerComponentsOf h inp apm aprm).map Reason.nonStaticComponent
        | none => [])
    ++ (match inp.serverReferenceManifest with
        | some srm => (h.getRoutesWithServerAction srm aprm).map Reason.routeWithServerAction
        | none => [])

/-- All `reasonsForBackend.add` calls of `build`, in program order, before
set-deduplication. -/
def classifyReasonsRaw (h : Helpers) (inp : BuildInput) : List Reason :=
  (if inp.usingMiddleware then [Reason.middleware] else [])
  ++ (if inp.usingImageOptimization then [Reason.imageOptimization] else [])
  ++ fallbackReasons inp.prerenderManifest
  ++ revalidateReasons inp.prerenderManifest
  ++ nonStaticRouteReasons h inp
  ++ (if everyHeaderSupported h inp.routesManifest then [] else [Reason.advancedHeaders])
  ++ appPathReasonsList h inp
  ++ (if everyRedirectSupported h inp.routesManifest then [] else [Reason.advancedRedirects])
  ++ (if phasedRewritesPresent inp.routesManifest.rewrites then [Reason.advancedRewrites] else [])
  ++ (if everyRewriteSupported h inp.routesManifest then [] else [Reason.advancedRewrites])

/-- The final contents of the `reasonsForBackend` set, in insertion order. -/
def classifyReasons (h : Helpers) (inp : BuildInput) : List Reason :=
  (classifyReasonsRaw h inp).foldl setAdd []

/-- The Hosting headers returned by `build`: the supported i18n-cleaned
header rules with unescaped sources, plus the meta-file headers when the
app-path-routes manifest is present. -/
def translatedHeaders (h : Helpers) (inp : BuildInput) : List HostingHeaderWithSource :=
  ((inp.routesManifest.headers.map h.cleanI18nHeader).filter h.isHeaderSupportedByHosting).map
    (fun hd => { source := cleanEscapedChars hd.source, headers := hd.headers })
  ++ (match inp.appPathRoutesManifest with
      | some _ => inp.appMetadata.headers
      | none => [])

/-- The Hosting redirects returned by `build`. -/
def translatedRedirects (h : Helpers) (inp : BuildInput) : List HostingRedirect :=
  ((inp.routesManifest.redirects.map h.cleanI18nRedirect).filter h.isRedirectSupportedByHosting).map
    (fun r => { source := cleanEscapedChars r.source, destination := r.destination,
                type := r.statusCode })

/-- The Hosting rewrites returned by `build`. -/
def translatedRewrites (h : Helpers) (inp : BuildInput) : List HostingRewrite :=
  (((getNextjsRewritesToUse inp.routesManifest.rewrites).filter
      h.isRewriteSupportedByHosting).map h.cleanI18nRewrite).map
    (fun r => { source := cleanEscapedChars r.source, destination := r.destination })

/-- The `BuildResult` of one classification pass
(`wantsBackend = reasonsForBackend.size > 0`). -/
def classifyResult (h : Helpers) (inp : BuildInput) : BuildResult :=
  { wantsBackend := decide (0 < (classifyReasons h inp).length),
    headers := translatedHeaders h inp,
    redirects := translatedRedirects h inp,
    rewrites := translatedRewrites h inp,
    trailingSlash := inp.trailingSlash,
    i18n := inp.routesManifest.i18n.isSome,
    baseUrl := inp.baseUrl }

/-- `DEFAULT_NUMBER_OF_REASONS_TO_LIST`. -/
def DEFAULT_NUMBER_OF_REASONS_TO_LIST : Nat := 5

/-- One classification pass together with its display output: the reasons
logged at info level (the first `numToList`) and the tail logged at debug
level. -/
structure BuildPassOutput where
  result : BuildResult
  listedReasons : List Reason
  debugReasons : List Reason
deriving DecidableEq, Repr

/-- The classification pass with display truncation at `numToList`
(the source fixes `numToList = DEFAULT_NUMBER_OF_REASONS_TO_LIST`). -/
def buildPass (h : Helpers) (inp : BuildInput) (numToList : Nat) : BuildPassOutput :=
  let reasons := classifyReasons h inp
  let result := classifyResult h inp
  { result := result,
    listedReasons := if result.wantsBackend then reasons.take numToList else [],
    debugReasons := if result.wantsBackend then reasons.drop numToList else [] }

/-- The outcome of the spawned `next build` process: either the `error`
event fired (with a message) or the `exit` event fired with an exit code. -/
inductive ProcOutcome
  | errored (msg : String)
  | exited (code : Int)

/-- The promise wrapping the spawned `next build`: `error` rejects with a
`FirebaseError` (modelled as a `String` error) wrapping the message, `exit`
resolves with the code — for any code. -/
def nextBuildPromise : ProcOutcome → Except String Int
  | .errored msg => .error ("Unable to build your Next.js app: " ++ msg)
  | .exited code => .ok code

/-- The outcomes of the six `readJSON` calls of `build`.  The first three
manifests are mandatory (a failure propagates); the last three are wrapped
in `.catch(() => undefined)`. -/
structure ReadResults where
  prerender : Except String PrerenderManifestT
  pages : Except String (List (String × String))
  routes : Except String RoutesManifestT
  appPaths : Except String (List (String × String))
  appPathRoutes : Except String (List (String × String))
  serverReference : Except String ActionManifest

/-- The remaining inputs of `build` not derived from manifest reads. -/
structure BuildAux where
  usingMiddleware : Bool
  usingImageOptimization : Bool
  appMetadata : AppMetadata
  hasStaticAppNotFound : Bool
  trailingSlash : Bool
  baseUrl : String

/-- The `build` step from the spawned `next build` onwards: await the build
promise, read the manifests (optional ones caught to `undefined`), then run
the classification pass.  Returns the `BuildResult` together with the reason
set. -/
def buildStep (h : Helpers) (outcome : ProcOutcome) (reads : ReadResults)
    (aux : BuildAux) : Except String (BuildResult × List Reason) := do
  let _ ← nextBuildPromise outcome
  let prerenderManifest ← reads.prerender
  let pagesManifest ← reads.pages
  let routesManifest ← reads.routes
  let inp : BuildInput :=
    { usingMiddleware := aux.usingMiddleware,
      usingImageOptimization := aux.usingImageOptimization,
      prerenderManifest := prerenderManifest,
      pagesManifest := pagesManifest,
      routesManifest := routesManifest,
      appPathsManifest := reads.appPaths.toOption,
      appPathRoutesManifest := reads.appPathRoutes.toOption,
      serverReferenceManifest := reads.serverReference.toOption,
      appMetadata := aux.appMetadata,
      hasStaticAppNotFound := aux.hasStaticAppNotFound,
      trailingSlash := aux.trailingSlash,
      baseUrl := aux.baseUrl }
  pure (classifyResult h inp, classifyReasons h inp)

/-- The kind of a per-route copy: the rendered document (html/body/exact
file) or the per-route JSON data payload. -/
inductive CopyKind
  | doc
  | routeData
deriving DecidableEq, Repr

/-- One `copyFile` performed by the static materializer, tagged with the
route path of the `routesToCopy` entry that produced it. -/
structure CopyOp where
  routePath : String
  src : String
  dest : String
  kind : CopyKind
deriving DecidableEq, Repr

/-- The inputs of `ɵcodegenPublicDirectory`.  `middlewareMatchers` is the
result of `getMiddlewareMatcherRegexes` (helper outside the sources) as a
list of regex sources; `pprRoutes` the result of
`getAppMetadataFromMetaFiles`; `fileExists`/`pathExists` are the
`fileExistsSync`/`pathExistsSync` oracles.  The bulk copies of `public/` and
`_next/static` are not route copies and are not modelled. -/
structure CodegenInput where
  sourceDir : String
  destDir : String
  distDir : String
  i18n : Option I18nConfig
  basePath : String
  siteDomains : List String
  prerenderManifest : PrerenderManifestT
  pagesManifest : List (String × String)
  routesManifest : RoutesManifestT
  appPathRoutesManifest : List (String × String)
  serverReferenceManifest : ActionManifest
  middlewareMatchers : List String
  pprRoutes : List String
  fileExists : String → Bool
  pathExists : String → Bool

/-- `i18n.domains.find(({domain}) => siteDomains.includes(domain))`. -/
def matchingI18nDomain (inp : CodegenInput) : Option DomainLocale :=
  match inp.i18n with
  | none => none
  | some i =>
    match i.domains with
    | none => none
    | some ds => ds.find? (fun d => inp.siteDomains.contains d.domain)

/-- The locale list of `(matchingI18nDomain || i18n)`, with `locales || []`
applied (`[]` when there is no i18n config at all). -/
def resolvedDomainLocales (inp : CodegenInput) : List String :=
  match matchingI18nDomain inp with
  | some d => d.locales.getD []
  | none =>
    match inp.i18n with
    | some i => i.locales
    | none => []

/-- `singleLocaleDomain = !i18n || ((matchingI18nDomain || i18n).locales || []).length <= 1`. -/
def singleLocaleDomain (inp : CodegenInput) : Bool :=
  match inp.i18n with
  | none => true
  | some _ => (resolvedDomainLocales inp).length ≤ 1

/-- The regex sources of the rewrites not supported by Hosting. -/
def rewritesRegexesNotSupported (h : Helpers) (rm : RoutesManifestT) : List String :=
  (((getNextjsRewritesToUse rm.rewrites).filter
      (fun r => !h.isRewriteSupportedByHosting r)).map h.cleanI18nRewrite).map
    (fun r => r.regex)

/-- The regex sources of the non-internal redirects not supported by Hosting. -/
def redirectsRegexesNotSupported (h : Helpers) (rm : RoutesManifestT) : List String :=
  ((((rm.redirects.filter (fun r => !r.internal)).filter
      (fun r => !h.isRedirectSupportedByHosting r)).map h.cleanI18nRedirect).map
    (fun r => r.regex))

/-- The regex sources of the headers not supported by Hosting. -/
def headersRegexesNotSupported (h : Helpers) (rm : RoutesManifestT) : List String :=
  (rm.headers.filter (fun hd => !h.isHeaderSupportedByHosting hd)).map (fun hd => hd.regex)

/-- `pathsUsingsFeaturesNotSupportedByHosting`: middleware matchers plus the
unsupported rewrite/redirect/header regexes. -/
def pathsUnsupported (h : Helpers) (inp : CodegenInput) : List String :=
  inp.middlewareMatchers
  ++ rewritesRegexesNotSupported h inp.routesManifest
  ++ redirectsRegexesNotSupported h inp.routesManifest
  ++ headersRegexesNotSupported h inp.routesManifest

/-- `getRoutesWithServerAction(serverReferenceManifest, appPathRoutesManifest)`
at the materializer call site. -/
def serverActionRoutes (h : Helpers) (inp : CodegenInput) : List String :=
  h.getRoutesWithServerAction inp.serverReferenceManifest inp.appPathRoutesManifest

/-- The record under which a pages-manifest `.html` entry enters
`routesToCopy`. -/
def pagesLikeRecord : PrerenderRoute :=
  { srcRoute := none, initialRevalidateSeconds := none, dataRoute := "",
    experimentalPPR := false, prefetchDataRoute := "" }

/-- `pagesManifestLikePrerender`: the pages-manifest entries whose source
file ends in `.html`, as prerender-manifest-shaped records. -/
def pagesManifestLikePrerender (pages : List (String × String)) : List (String × PrerenderRoute) :=
  (pages.filter (fun kv => strEndsWith kv.2 ".html")).map (fun kv => (kv.1, pagesLikeRecord))

/-- The entry set of `{...a, ...b}` for string-keyed objects: keys of `b`
override keys of `a`.  (Entry order is not modelled; the materializer
processes entries independently.) -/
def objectSpread (a b : List (String × PrerenderRoute)) : List (String × PrerenderRoute) :=
  a.filter (fun kv => !(b.map Prod.fst).contains kv.1) ++ b

/-- `routesToCopy = {...prerenderManifest.routes, ...pagesManifestLikePrerender}`. -/
def routesToCopy (inp : CodegenInput) : List (String × PrerenderRoute) :=
  objectSpread inp.prerenderManifest.routes (pagesManifestLikePrerender inp.pagesManifest)

/-- `route.srcRoute && appPathRoutesEntries.find(([, it]) => it === route.srcRoute)?.[0]`. -/
def appPathRouteOf (inp : CodegenInput) (route : PrerenderRoute) : Option String :=
  match route.srcRoute with
  | none => none
  | some sr => (inp.appPathRoutesManifest.find? (fun kv => kv.2 == sr)).map Prod.fst

/-- `contentDist = join(sourceDir, distDir, "server", appPathRoute ? "app" : "pages")`
as path fragments. -/
def contentDistParts (inp : CodegenInput) (route : PrerenderRoute) : List String :=
  [inp.sourceDir, inp.distDir, "server",
   if (appPathRouteOf inp route).isSome then "app" else "pages"]

/-- `sourceParts = path.split("/").filter(it => !!it)`. -/
def sourcePartsOf (path : String) : List String := splitSlash path

/-- `sourceParts.length > 0 ? sourceParts : ["index"]`. -/
def sourcePartsOrIndexOf (path : String) : List String :=
  if (sourcePartsOf path).length > 0 then sourcePartsOf path else ["index"]

/-- `locale = i18n?.locales.includes(sourceParts[0]) ? sourceParts[0] : undefined`. -/
def localeOf (inp : CodegenInput) (path : String) : Option String :=
  match inp.i18n with
  | none => none
  | some i =>
    match (sourcePartsOf path).head? with
    | none => none
    | some hd => if i.locales.contains hd then some hd else none

/-- `includeOnThisDomain = !locale || !matchingI18nDomain ||
matchingI18nDomain.defaultLocale === locale || !matchingI18nDomain.locales ||
matchingI18nDomain.locales.includes(locale)`. -/
def includeOnThisDomainB (inp : CodegenInput) (path : String) : Bool :=
  match localeOf inp path with
  | none => true
  | some l =>
    match matchingI18nDomain inp with
    | none => true
    | some d => d.defaultLocale == l || d.locales.isNone || (d.locales.getD []).contains l

/-- `destParts = sourceParts.slice(locale ? 1 : 0)`. -/
def destPartsOf (inp : CodegenInput) (path : String) : List String :=
  (sourcePartsOf path).drop (if (localeOf inp path).isSome then 1 else 0)

/-- `destParts.length > 0 ? destParts : ["index"]`. -/
def destPartsOrIndexOf (inp : CodegenInput) (path : String) : List String :=
  if (destPartsOf inp path).length > 0 then destPartsOf inp path else ["index"]

/-- `isDefaultLocale = !locale || (matchingI18nDomain || i18n)?.defaultLocale === locale`. -/
def isDefaultLocaleB (inp : CodegenInput) (path : String) : Bool :=
  match localeOf inp path with
  | none => true
  | some l =>
    match matchingI18nDomain inp with
    | some d => d.defaultLocale == l
    | none =>
      match inp.i18n with
      | some i => i.defaultLocale == l
      | none => false

/-- `sourcePath = join(contentDist, ...sourcePartsOrIndex)`, before any
extension is appended. -/
def entrySourcePath (inp : CodegenInput) (path : String) (route : PrerenderRoute) : String :=
  jsJoin (contentDistParts inp route ++ sourcePartsOrIndexOf path)

/-- `localizedDestPath = !singleLocaleDomain && locale &&
join(destDir, I18N_ROOT, locale, basePath, ...destPartsOrIndex)`. -/
def localizedDestPathOf (inp : CodegenInput) (path : String) : Option String :=
  match localeOf inp path with
  | none => none
  | some l =>
    if singleLocaleDomain inp then none
    else some (jsJoin ([inp.destDir, I18N_ROOT, l, inp.basePath] ++ destPartsOrIndexOf inp path))

/-- `defaultDestPath = isDefaultLocale && join(destDir, basePath, ...destPartsOrIndex)`. -/
def defaultDestPathOf (inp : CodegenInput) (path : String) : Option String :=
  if isDefaultLocaleB inp path then
    some (jsJoin ([inp.destDir, inp.basePath] ++ destPartsOrIndexOf inp path))
  else none

/-- How the rendered artifact of a route resolves on disk: the exact file,
the `.html` document (where a partial-pre-rendering route is skipped), the
`.body` artifact of a literal route handler, or nothing. -/
inductive ArtifactChoice
  | htmlDoc
  | bodyDoc
  | exactDoc
  | missing
  | pprSkip
deriving DecidableEq, Repr

/-- The branch taken by the source-resolution `if` chain of the
materializer. -/
def resolveArtifact (inp : CodegenInput) (path : String) (route : PrerenderRoute) :
    ArtifactChoice :=
  if !inp.fileExists (entrySourcePath inp path route)
      && inp.fileExists (entrySourcePath inp path route ++ ".html") then
    if inp.pprRoutes.contains path then .pprSkip else .htmlDoc
  else if (match appPathRouteOf inp route with
           | some apr => basename apr == "route"
           | none => false)
      && inp.fileExists (entrySourcePath inp path route ++ ".body") then .bodyDoc
  else if !inp.pathExists (entrySourcePath inp path route) then .missing
  else .exactDoc

/-- The document copies of one route: to the localized destination and to
the default destination, when each is set.  `ext` is the extension appended
to the destinations (`.html` in the html branch, nothing otherwise). -/
def docOps (inp : CodegenInput) (path : String) (src : String) (ext : String) : List CopyOp :=
  (match localizedDestPathOf inp path with
   | some d => [{ routePath := path, src := src, dest := d ++ ext, kind := CopyKind.doc }]
   | none => []) ++
  (match defaultDestPathOf inp path with
   | some d => [{ routePath := path, src := src, dest := d ++ ext, kind := CopyKind.doc }]
   | none => [])

/-- The data-payload copy of one route, when `route.dataRoute` is truthy and
the route has no owning app-path route. -/
def dataOps (inp : CodegenInput) (path : String) (route : PrerenderRoute) : List CopyOp :=
  if route.dataRoute ≠ "" ∧ (appPathRouteOf inp route).isNone then
    [{ routePath := path,
       src := jsJoin (contentDistParts inp route ++ sourcePartsOrIndexOf path) ++ ".json",
       dest := jsJoin [inp.destDir, inp.basePath, route.dataRoute],
       kind := CopyKind.routeData }]
  else []

/-- The copies performed for one `routesToCopy` entry, `[]` when the entry
is skipped (revalidate, unsupported-feature match, server action, foreign
locale, partial pre-rendering, or missing artifact). -/
def materializeEntry (h : Helpers) (inp : CodegenInput) (path : String)
    (route : PrerenderRoute) : List CopyOp :=
  if revalidateTruthy route.initialRevalidateSeconds then []
  else if (pathsUnsupported h inp).any (fun re => h.regexTest re path) then []
  else if (serverActionRoutes h inp).any (fun it => path == it) then []
  else if !includeOnThisDomainB inp path then []
  else
    match resolveArtifact inp path route with
    | .pprSkip => []
    | .missing => []
    | .htmlDoc =>
      docOps inp path (entrySourcePath inp path route ++ ".html") ".html"
        ++ dataOps inp path route
    | .bodyDoc =>
      docOps inp path (entrySourcePath inp path route ++ ".body") "" ++ dataOps inp path route
    | .exactDoc =>
      docOps inp path (entrySourcePath inp path route) "" ++ dataOps inp path route

/-- All per-route copies performed by the static materializer. -/
def materialize (h : Helpers) (inp : CodegenInput) : List CopyOp :=
  ((routesToCopy inp).map (fun kv => materializeEntry h inp kv.1 kv.2)).flatten

/-- Modelled from the spec: a concrete instantiation of the helpers that
live outside the sources, used only to evaluate the pipeline at concrete
inputs.  Per §4.1 the compatibility predicates reject rules that use
`has`/`missing` request-matching conditions; `cleanI18n` is the identity on
rules without locale prefixes; `getNonStaticRoutes` follows §4.3 item 5
("present in PagesManifest but absent from both prerenderedRoutes and
dynamicRoutes"); the app-path helpers and the regex oracle are evaluated
only at inputs where their result is empty. -/
def specHelpers : Helpers :=
  { cleanI18nHeader := id,
    cleanI18nRedirect := id,
    cleanI18nRewrite := id,
    isHeaderSupportedByHosting := fun hd => !hd.has,
    isRedirectSupportedByHosting := fun r => !r.has,
    isRewriteSupportedByHosting := fun r => !r.has,
    getNonStaticRoutes := fun pages prer dyn =>
      (pages.filter (fun kv => !prer.contains kv.1 && !dyn.contains kv.1)).map Prod.fst,
    getNonStaticServerComponents := fun _ _ _ _ => [],
    getRoutesWithServerAction := fun _ _ => [],
    regexTest := fun _ _ => false }

theorem mem_setAdd {x a : Reason} {s : List Reason} : x ∈ setAdd s a ↔ x ∈ s ∨ x = a := by
  by_cases hmem : a ∈ s
  · simp only [setAdd, if_pos hmem]
    exact ⟨Or.inl, fun hx => hx.elim id (fun he => he ▸ hmem)⟩
  · simp [setAdd, if_neg hmem]

theorem mem_foldl_setAdd (x : Reason) (l : List Reason) :
    ∀ s, x ∈ l.foldl setAdd s ↔ x ∈ s ∨ x ∈ l := by
  induction l with
  | nil => intro s; simp
  | cons a t ih =>
    intro s
    simp only [List.foldl_cons, ih, mem_setAdd, List.mem_cons]
    tauto

theorem nodup_setAdd {s : List Reason} (hs : s.Nodup) (a : Reason) : (setAdd s a).Nodup := by
  by_cases hmem : a ∈ s
  · simpa only [setAdd, if_pos hmem] using hs
  · simp only [setAdd, if_neg hmem]
    simp [List.nodup_append, hs, hmem]

theorem nodup_foldl_setAdd (l : List Reason) : ∀ s, s.Nodup → (l.foldl setAdd s).Nodup := by
  induction l with
  | nil => intro s hs; exact hs
  | cons a t ih => intro s hs; exact ih _ (nodup_setAdd hs a)

theorem mem_classifyReasons {h : Helpers} {inp : BuildInput} {x : Reason} :
    x ∈ classifyReasons h inp ↔ x ∈ classifyReasonsRaw h inp := by
  unfold classifyReasons
  rw [mem_foldl_setAdd]
  simp

theorem count_classifyReasons (h : Helpers) (inp : BuildInput) (x : Reason) :
    (classifyReasons h inp).count x = if x ∈ classifyReasonsRaw h inp then 1 else 0 := by
  by_cases hx : x ∈ classifyReasonsRaw h inp
  · rw [if_pos hx]
    exact List.count_eq_one_of_mem (nodup_foldl_setAdd _ _ List.nodup_nil)
      (mem_classifyReasons.2 hx)
  · rw [if_neg hx]
    exact List.count_eq_zero.2 (fun hmem => hx (mem_classifyReasons.1 hmem))

theorem mem_ite_singleton {c : Prop} [Decidable c] {x y : Reason} :
    (x ∈ if c then [y] else ([] : List Reason)) ↔ c ∧ x = y := by
  split <;> simp_all

theorem mem_ite_nil {c : Prop} [Decidable c] {x y : Reason} :
    (x ∈ if c then ([] : List Reason) else [y]) ↔ ¬c ∧ x = y := by
  split <;> simp_all

theorem appPathReasonsList_shape {h : Helpers} {inp : BuildInput} {x : Reason}
    (hx : x ∈ appPathReasonsList h inp) :
    (∃ k, x = Reason.routeWithPPR k) ∨ (∃ k, x = Reason.nonStaticComponent k) ∨
      (∃ k, x = Reason.routeWithServerAction k) := by
  unfold appPathReasonsList at hx
  cases haprm : inp.appPathRoutesManifest with
  | none => rw [haprm] at hx; simp at hx
  | some aprm =>
    rw [haprm] at hx
    rcases List.mem_append.1 hx with hx1 | hx3
    · rcases List.mem_append.1 hx1 with hx1 | hx2
      · obtain ⟨k, -, rfl⟩ := List.mem_map.1 hx1
        exact Or.inl ⟨k, rfl⟩
      · cases hapm : inp.appPathsManifest with
        | none => rw [hapm] at hx2; simp at hx2
        | some apm =>
          rw [hapm] at hx2
          obtain ⟨k, -, rfl⟩ := List.mem_map.1 hx2
          exact Or.inr (Or.inl ⟨k, rfl⟩)
    · cases hsrm : inp.serverReferenceManifest with
      | none => rw [hsrm] at hx3; simp at hx3
      | some srm =>
        rw [hsrm] at hx3
        obtain ⟨k, -, rfl⟩ := List.mem_map.1 hx3
        exact Or.inr (Or.inr ⟨k, rfl⟩)

theorem advancedHeaders_not_mem_appPath (h : Helpers) (inp : BuildInput) :
    Reason.advancedHeaders ∉ appPathReasonsList h inp := by
  intro hx
  rcases appPathReasonsList_shape hx with ⟨k, hk⟩ | ⟨k, hk⟩ | ⟨k, hk⟩ <;> simp at hk

theorem advancedRedirects_not_mem_appPath (h : Helpers) (inp : BuildInput) :
    Reason.advancedRedirects ∉ appPathReasonsList h inp := by
  intro hx
  rcases appPathReasonsList_shape hx with ⟨k, hk⟩ | ⟨k, hk⟩ | ⟨k, hk⟩ <;> simp at hk

theorem advancedRewrites_not_mem_appPath (h : Helpers) (inp : BuildInput) :
    Reason.advancedRewrites ∉ appPathReasonsList h inp := by
  intro hx
  rcases appPathReasonsList_shape hx with ⟨k, hk⟩ | ⟨k, hk⟩ | ⟨k, hk⟩ <;> simp at hk

theorem mem_raw_advancedHeaders (h : Helpers) (inp : BuildInput) :
    Reason.advancedHeaders ∈ classifyReasonsRaw h inp ↔
      everyHeaderSupported h inp.routesManifest = false := by
  simp [classifyReasonsRaw, List.mem_append, mem_ite_singleton, mem_ite_nil,
    fallbackReasons, revalidateReasons, nonStaticRouteReasons, List.mem_map,
    advancedHeaders_not_mem_appPath h inp]

theorem mem_raw_advancedRedirects (h : Helpers) (inp : BuildInput) :
    Reason.advancedRedirects ∈ classifyReasonsRaw h inp ↔
      everyRedirectSupported h inp.routesManifest = false := by
  simp [classifyReasonsRaw, List.mem_append, mem_ite_singleton, mem_ite_nil,
    fallbackReasons, revalidateReasons, nonStaticRouteReasons, List.mem_map,
    advancedRedirects_not_mem_appPath h inp]

theorem mem_raw_advancedRewrites (h : Helpers) (inp : BuildInput) :
    Reason.advancedRewrites ∈ classifyReasonsRaw h inp ↔
      (phasedRewritesPresent inp.routesManifest.rewrites = true ∨
        everyRewriteSupported h inp.routesManifest = false) := by
  simp [classifyReasonsRaw, List.mem_append, mem_ite_singleton, mem_ite_nil,
    fallbackReasons, revalidateReasons, nonStaticRouteReasons, List.mem_map,
    advancedRewrites_not_mem_appPath h inp]

theorem docOps_routePath {inp : CodegenInput} {path src ext : String} {op : CopyOp}
    (hop : op ∈ docOps inp path src ext) : op.routePath = path := by
  unfold docOps at hop
  rcases List.mem_append.1 hop with h1 | h1
  · cases hL : localizedDestPathOf inp path <;> rw [hL] at h1 <;> simp at h1
    rw [h1]
  · cases hD : defaultDestPathOf inp path <;> rw [hD] at h1 <;> simp at h1
    rw [h1]

theorem docOps_kind {inp : CodegenInput} {path src ext : String} {op : CopyOp}
    (hop : op ∈ docOps inp path src ext) : op.kind = CopyKind.doc := by
  unfold docOps at hop
  rcases List.mem_append.1 hop with h1 | h1
  · cases hL : localizedDestPathOf inp path <;> rw [hL] at h1 <;> simp at h1
    rw [h1]
  · cases hD : defaultDestPathOf inp path <;> rw [hD] at h1 <;> simp at h1
    rw [h1]

theorem dataOps_routePath {inp : CodegenInput} {path : String} {route : PrerenderRoute}
    {op : CopyOp} (hop : op ∈ dataOps inp path route) : op.routePath = path := by
  unfold dataOps at hop
  split at hop
  · simp at hop
    rw [hop]
  · simp at hop

theorem dataOps_kind {inp : CodegenInput} {path : String} {route : PrerenderRoute}
    {op : CopyOp} (hop : op ∈ dataOps inp path route) : op.kind = CopyKind.routeData := by
  unfold dataOps at hop
  split at hop
  · simp at hop
    rw [hop]
  · simp at hop

theorem materializeEntry_routePath {h : Helpers} {inp : CodegenInput} {path : String}
    {route : PrerenderRoute} {op : CopyOp} (hop : op ∈ materializeEntry h inp path route) :
    op.routePath = path := by
  unfold materializeEntry at hop
  repeat' split at hop
  all_goals
    first
    | exact absurd hop (List.not_mem_nil op)
    | (rcases List.mem_append.1 hop with h1 | h1
       · exact docOps_routePath h1
       · exact dataOps_routePath h1)

theorem mem_materialize {h : Helpers} {inp : CodegenInput} {op : CopyOp} :
    op ∈ materialize h inp ↔
      ∃ p r, (p, r) ∈ routesToCopy inp ∧ op ∈ materializeEntry h inp p r := by
  simp only [materialize, List.mem_flatten, List.mem_map, Prod.exists]
  constructor
  · rintro ⟨l, ⟨a, b, hm, rfl⟩, hop⟩
    exact ⟨a, b, hm, hop⟩
  · rintro ⟨a, b, hm, hop⟩
    exact ⟨_, ⟨a, b, hm, rfl⟩, hop⟩

theorem mem_pagesLike {pages : List (String × String)} {kv : String × PrerenderRoute} :
    kv ∈ pagesManifestLikePrerender pages ↔
      (∃ src, (kv.1, src) ∈ pages ∧ strEndsWith src ".html" = true) ∧
        kv.2 = pagesLikeRecord := by
  cases kv with
  | mk k r =>
    simp only [pagesManifestLikePrerender, List.mem_map, List.mem_filter]
    constructor
    · rintro ⟨⟨k2, src⟩, ⟨hmem, hhtml⟩, heq⟩
      obtain ⟨rfl, rfl⟩ := Prod.mk.injEq .. ▸ And.intro (congrArg Prod.fst heq)
        (congrArg Prod.snd heq)
      exact ⟨⟨src, hmem, hhtml⟩, rfl⟩
    · rintro ⟨⟨src, hmem, hhtml⟩, rfl⟩
      exact ⟨(k, src), ⟨hmem, hhtml⟩, rfl⟩

theorem mem_routesToCopy {inp : CodegenInput} {kv : String × PrerenderRoute} :
    kv ∈ routesToCopy inp ↔
      (kv ∈ inp.prerenderManifest.routes ∧
        ((pagesManifestLikePrerender inp.pagesManifest).map Prod.fst).contains kv.1 = false)
      ∨ kv ∈ pagesManifestLikePrerender inp.pagesManifest := by
  simp only [routesToCopy, objectSpread, List.mem_append, List.mem_filter,
    Bool.not_eq_true', Bool.not_eq_eq_eq_not]
  constructor
  · rintro (⟨hmem, hcon⟩ | hb)
    · exact Or.inl ⟨hmem, by simpa using hcon⟩
    · exact Or.inr hb
  · rintro (⟨hmem, hcon⟩ | hb)
    · exact Or.inl ⟨hmem, by simpa using hcon⟩
    · exact Or.inr hb

theorem no_op_for_path {h : Helpers} {inp : CodegenInput} {path : String}
    (hentry : ∀ route, (path, route) ∈ routesToCopy inp →
      materializeEntry h inp path route = []) :
    ∀ op ∈ materialize h inp, op.routePath ≠ path := by
  intro op hop heq
  rcases mem_materialize.1 hop with ⟨p, r, hkv, hin⟩
  have hp : op.routePath = p := materializeEntry_routePath hin
  have hk : p = path := by rw [← hp, heq]
  subst hk
  rw [hentry r hkv] at hin
  exact absurd hin (List.not_mem_nil op)

theorem cleanAux_cons_ne (c : Char) (rest : List Char) (hc : c ≠ '\\') :
    cleanEscapedCharsAux (c :: rest) = c :: cleanEscapedCharsAux rest := by
  rw [cleanEscapedCharsAux.eq_def]
  split
  · rename_i heq
    simp at heq
  · rename_i c2 r2 heq
    injection heq with h1 h2
    exact absurd h1 hc
  · rename_i hno c2 r2 heq
    injection heq with h1 h2
    rw [← h1, ← h2]

theorem cleanFixed_cons_ne (c : Char) (rest : List Char) (hc : c ≠ '\\') :
    cleanFixed (c :: rest) = cleanFixed rest := by
  rw [cleanFixed.eq_def]
  split
  · rename_i c2 r2 heq
    injection heq with h1 h2
    exact absurd h1 hc
  · rename_i hno c2 r2 heq
    injection heq with h1 h2
    rw [← h2]
  · rename_i heq
    simp at heq

theorem noDouble_cons_ne (c : Char) (rest : List Char) (hc : c ≠ '\\') :
    noDoubleBackslash (c :: rest) = noDoubleBackslash rest := by
  rw [noDoubleBackslash.eq_def]
  split
  · rename_i r2 heq
    injection heq with h1 h2
    exact absurd h1 hc
  · rename_i hno c2 r2 heq
    injection heq with h1 h2
    rw [← h2]
  · rename_i heq
    simp at heq

theorem noDouble_head_ne (c : Char) (rest : List Char)
    (hd : noDoubleBackslash ('\\' :: c :: rest) = true) : c ≠ '\\' := by
  intro hcc
  subst hcc
  have hfalse : noDoubleBackslash ('\\' :: '\\' :: rest) = false := rfl
  rw [hfalse] at hd
  exact Bool.noConfusion hd

theorem noDouble_bb_tail (c : Char) (rest : List Char) (hc : c ≠ '\\') :
    noDoubleBackslash ('\\' :: c :: rest) = noDoubleBackslash (c :: rest) := by
  rw [noDoubleBackslash.eq_def]
  split
  · rename_i r2 heq
    injection heq with h1 h2
    injection h2 with h3 h4
    exact absurd h3 hc
  · rename_i hno c2 r2 heq
    injection heq with h1 h2
    rw [← h2]
  · rename_i heq
    simp at heq

theorem backslash_not_escapable : escapableChars.contains '\\' = false := by decide

theorem cleanAux_of_fixed (l : List Char) (hf : cleanFixed l = true) :
    cleanEscapedCharsAux l = l := by
  induction l using cleanEscapedCharsAux.induct with
  | case1 => rfl
  | case2 c rest h ih =>
    exfalso
    rw [cleanFixed.eq_def] at hf
    simp only [h] at hf
    exact Bool.noConfusion hf
  | case3 c rest h ih =>
    have hbool : escapableChars.contains c = false := Bool.not_eq_true _ ▸ eq_false_of_ne_true h
    rw [cleanFixed.eq_def] at hf
    simp only [hbool, Bool.not_false, Bool.true_and] at hf
    rw [cleanEscapedCharsAux.eq_def]
    simp only [hbool, Bool.false_eq_true, if_false]
    rw [ih hf]
  | case4 c rest h ih =>
    by_cases hc : c = '\\'
    · subst hc
      cases rest with
      | nil => rfl
      | cons d tl => exact (h d tl rfl rfl).elim
    · rw [cleanAux_cons_ne c rest hc]
      rw [cleanFixed_cons_ne c rest hc] at hf
      rw [ih hf]

theorem cleanFixed_of_noDouble (l : List Char) (hd : noDoubleBackslash l = true) :
    cleanFixed (cleanEscapedCharsAux l) = true := by
  induction l using cleanEscapedCharsAux.induct with
  | case1 => rfl
  | case2 c rest h ih =>
    have hc : c ≠ '\\' := by
      intro hcc
      subst hcc
      rw [backslash_not_escapable] at h
      exact Bool.noConfusion h
    have hd2 : noDoubleBackslash rest = true := by
      rw [noDouble_bb_tail c rest hc, noDouble_cons_ne c rest hc] at hd
      exact hd
    rw [cleanEscapedCharsAux.eq_def]
    simp only [h, if_true]
    rw [cleanFixed_cons_ne c _ hc]
    exact ih hd2
  | case3 c rest h ih =>
    have hbool : escapableChars.contains c = false := Bool.not_eq_true _ ▸ eq_false_of_ne_true h
    have hc : c ≠ '\\' := noDouble_head_ne c rest hd
    have hd2 : noDoubleBackslash (c :: rest) = true := by
      rw [noDouble_bb_tail c rest hc] at hd
      exact hd
    rw [cleanEscapedCharsAux.eq_def]
    simp only [hbool, Bool.false_eq_true, if_false]
    rw [cleanAux_cons_ne c rest hc]
    rw [cleanFixed.eq_def]
    simp only [hbool, Bool.not_false, Bool.true_and]
    rw [← cleanAux_cons_ne c rest hc]
    exact ih hd2
  | case4 c rest h ih =>
    by_cases hc : c = '\\'
    · subst hc
      cases rest with
      | nil => rfl
      | cons d tl => exact (h d tl rfl rfl).elim
    · rw [cleanAux_cons_ne c rest hc]
      rw [cleanFixed_cons_ne c _ hc]
      rw [noDouble_cons_ne c rest hc] at hd
      exact ih hd

/-- An all-empty baseline classification input for concrete evaluations. -/
def emptyBuildInput : BuildInput :=
  { usingMiddleware := false, usingImageOptimization := false,
    prerenderManifest := { routes := [], dynamicRoutes := [] },
    pagesManifest := [],
    routesManifest :=
      { headers := [], redirects := [], rewrites := NextRewrites.arr [], i18n := none },
    appPathsManifest := none, appPathRoutesManifest := none, serverReferenceManifest := none,
    appMetadata := { headers := [], pprRoutes := [] },
    hasStaticAppNotFound := false, trailingSlash := false, baseUrl := "/" }

/-- Claim C1: in every classification pass the returned `wantsBackend` flag
is true exactly when the accumulated reason set is non-empty, and truncating
the displayed reason list (to the first `DEFAULT_NUMBER_OF_REASONS_TO_LIST`
entries or to any other length) changes neither the flag nor any other field
of the returned result. -/
theorem c1_wantsBackend_iff_reasons_nonempty (h : Helpers) (inp : BuildInput) (n : Nat) :
    ((buildPass h inp n).result.wantsBackend = true ↔ classifyReasons h inp ≠ [])
    ∧ (buildPass h inp n).result = (buildPass h inp DEFAULT_NUMBER_OF_REASONS_TO_LIST).result := by
  constructor
  · simp [buildPass, classifyResult, List.length_pos]
  · rfl

/-- An internal redirect carrying `has`/`missing` request-matching
conditions (hence unsupported by Hosting per §4.1). -/
def internalUnsupportedRedirect : Redirect :=
  { source := "/old", destination := "/new", statusCode := 308, regex := "^/old$",
    internal := true, has := true }

/-- A classification input whose routes manifest holds exactly one redirect,
internal and unsupported. -/
def buildInputC2 : BuildInput :=
  { emptyBuildInput with
    routesManifest :=
      { headers := [], redirects := [internalUnsupportedRedirect],
        rewrites := NextRewrites.arr [], i18n := none } }

/-- Claim C2, counterexample: the routes manifest contains an unsupported
redirect rule, yet the pass adds no `advanced redirects` reason at all — the
code exempts internal redirects from the check, so "at least one unsupported
rule adds exactly one reason" fails as stated. -/
theorem c2_internal_redirect_counterexample :
    (buildInputC2.routesManifest.redirects.any
        (fun r => !specHelpers.isRedirectSupportedByHosting r)) = true
    ∧ (classifyReasons specHelpers buildInputC2).count Reason.advancedRedirects = 0 := by
  decide

/-- Claim C2 as amended: for each rule category the pass adds the category's
reason exactly once when the category fails its support check and never
otherwise, regardless of how many rules exist or fail — where the redirects
category counts only non-internal redirects, the headers category is judged
on the i18n-cleaned rules, and the rewrites category fails when a
translatable rewrite is unsupported or the phased form has `afterFiles` or
`fallback` rules. -/
theorem c2_category_reason_multiplicity (h : Helpers) (inp : BuildInput) :
    ((classifyReasons h inp).count Reason.advancedHeaders
        = if everyHeaderSupported h inp.routesManifest then 0 else 1)
    ∧ ((classifyReasons h inp).count Reason.advancedRedirects
        = if everyRedirectSupported h inp.routesManifest then 0 else 1)
    ∧ ((classifyReasons h inp).count Reason.advancedRewrites
        = if everyRewriteSupported h inp.routesManifest
            && !phasedRewritesPresent inp.routesManifest.rewrites then 0 else 1) := by
  refine ⟨?_, ?_, ?_⟩
  · rw [count_classifyReasons]
    cases hh : everyHeaderSupported h inp.routesManifest <;>
      simp [mem_raw_advancedHeaders, hh]
  · rw [count_classifyReasons]
    cases hh : everyRedirectSupported h inp.routesManifest <;>
      simp [mem_raw_advancedRedirects, hh]
  · rw [count_classifyReasons]
    cases hp : phasedRewritesPresent inp.routesManifest.rewrites <;>
      cases he : everyRewriteSupported h inp.routesManifest <;>
        simp [mem_raw_advancedRewrites, hp, he]

/-- Claim C9, counterexample: `cleanEscapedChars` is not idempotent on every
string — on a source containing an escaped backslash followed by an
escapable character (here `\\(`), a second application removes one more
backslash. -/
theorem c9_not_idempotent_counterexample :
    cleanEscapedChars (cleanEscapedChars "\\\\(") ≠ cleanEscapedChars "\\\\(" := by
  decide

/-- Claim C9 as amended: `cleanEscapedChars` is idempotent on every source
string that contains no two consecutive backslashes (in particular on every
source in which the pattern compiler escaped only the redundant pattern
metacharacters). -/
theorem c9_idempotent_no_double_backslash (s : String)
    (hnd : noDoubleBackslash s.data = true) :
    cleanEscapedChars (cleanEscapedChars s) = cleanEscapedChars s := by
  unfold cleanEscapedChars
  exact congrArg String.mk (cleanAux_of_fixed _ (cleanFixed_of_noDouble s.data hnd))

/-- Claim C9, witness: a concrete escaped rewrite source satisfying the
amended hypothesis, on which idempotence holds. -/
theorem c9_idempotent_witness :
    noDoubleBackslash ("/about\\(p\\)" : String).data = true
    ∧ cleanEscapedChars (cleanEscapedChars "/about\\(p\\)") = cleanEscapedChars "/about\\(p\\)" :=
  ⟨by decide, c9_idempotent_no_double_backslash "/about\\(p\\)" (by decide)⟩

theorem mem_raw_routeWithPPR {h : Helpers} {inp : BuildInput} {k : String} :
    Reason.routeWithPPR k ∈ classifyReasonsRaw h inp ↔
      Reason.routeWithPPR k ∈ appPathReasonsList h inp := by
  simp [classifyReasonsRaw, List.mem_append, mem_ite_singleton, mem_ite_nil,
    fallbackReasons, revalidateReasons, nonStaticRouteReasons, List.mem_map]

theorem mem_raw_nonStaticComponent {h : Helpers} {inp : BuildInput} {k : String} :
    Reason.nonStaticComponent k ∈ classifyReasonsRaw h inp ↔
      Reason.nonStaticComponent k ∈ appPathReasonsList h inp := by
  simp [classifyReasonsRaw, List.mem_append, mem_ite_singleton, mem_ite_nil,
    fallbackReasons, revalidateReasons, nonStaticRouteReasons, List.mem_map]

theorem mem_raw_routeWithServerAction {h : Helpers} {inp : BuildInput} {k : String} :
    Reason.routeWithServerAction k ∈ classifyReasonsRaw h inp ↔
      Reason.routeWithServerAction k ∈ appPathReasonsList h inp := by
  simp [classifyReasonsRaw, List.mem_append, mem_ite_singleton, mem_ite_nil,
    fallbackReasons, revalidateReasons, nonStaticRouteReasons, List.mem_map]

theorem appPathReasonsList_of_none {h : Helpers} {inp : BuildInput}
    (hn : inp.appPathRoutesManifest = none) : appPathReasonsList h inp = [] := by
  unfold appPathReasonsList
  rw [hn]

theorem nonStaticComponent_needs_appPaths {h : Helpers} {inp : BuildInput} {k : String}
    (hx : Reason.nonStaticComponent k ∈ appPathReasonsList h inp) :
    ∃ apm, inp.appPathsManifest = some apm := by
  unfold appPathReasonsList at hx
  cases haprm : inp.appPathRoutesManifest with
  | none => rw [haprm] at hx; simp at hx
  | some aprm =>
    rw [haprm] at hx
    rcases List.mem_append.1 hx with hx1 | hx3
    · rcases List.mem_append.1 hx1 with hx1 | hx2
      · simp at hx1
      · cases hapm : inp.appPathsManifest with
        | none => rw [hapm] at hx2; simp at hx2
        | some apm => exact ⟨apm, rfl⟩
    · cases hsrm : inp.serverReferenceManifest with
      | none => rw [hsrm] at hx3; simp at hx3
      | some srm => rw [hsrm] at hx3; simp at hx3

theorem routeWithServerAction_needs_serverReference {h : Helpers} {inp : BuildInput} {k : String}
    (hx : Reason.routeWithServerAction k ∈ appPathReasonsList h inp) :
    ∃ srm, inp.serverReferenceManifest = some srm := by
  unfold appPathReasonsList at hx
  cases haprm : inp.appPathRoutesManifest with
  | none => rw [haprm] at hx; simp at hx
  | some aprm =>
    rw [haprm] at hx
    rcases List.mem_append.1 hx with hx1 | hx3
    · rcases List.mem_append.1 hx1 with hx1 | hx2
      · simp at hx1
      · cases hapm : inp.appPathsManifest with
        | none => rw [hapm] at hx2; simp at hx2
        | some apm => rw [hapm] at hx2; simp at hx2
    · cases hsrm : inp.serverReferenceManifest with
      | none => rw [hsrm] at hx3; simp at hx3
      | some srm => exact ⟨srm, rfl⟩

/-- Manifest reads where the three mandatory manifests parse and the three
optional manifests fail (missing or malformed). -/
def readsOptionalFail : ReadResults :=
  { prerender := .ok { routes := [], dynamicRoutes := [] },
    pages := .ok [],
    routes := .ok
      { headers := [], redirects := [], rewrites := NextRewrites.arr [], i18n := none },
    appPaths := .error "Unexpected token in JSON",
    appPathRoutes := .error "Unexpected token in JSON",
    serverReference := .error "Unexpected token in JSON" }

/-- Manifest reads where the mandatory prerender manifest fails to parse. -/
def readsMandatoryFail : ReadResults :=
  { readsOptionalFail with prerender := .error "Unexpected token in JSON" }

/-- Build auxiliary inputs with nothing enabled. -/
def auxEmpty : BuildAux :=
  { usingMiddleware := false, usingImageOptimization := false,
    appMetadata := { headers := [], pprRoutes := [] },
    hasStaticAppNotFound := false, trailingSlash := false, baseUrl := "/" }

/-- Claim C7, counterexample: the spawned `next build` exits with code 1,
yet the build step resolves and proceeds all the way through manifest
reading and classification, returning an `ok` result — the exit handler
resolves with the code for any code, so a non-zero exit is not fatal. -/
theorem c7_nonzero_exit_counterexample :
    buildStep specHelpers (ProcOutcome.exited 1) readsOptionalFail auxEmpty
      = Except.ok (classifyResult specHelpers emptyBuildInput,
          classifyReasons specHelpers emptyBuildInput) := rfl

/-- Claim C7 as amended: only the `error` event of the spawned `next build`
(the process failing to run) is fatal — it rejects with a single typed error
wrapping the failure with context, and neither manifest reading nor
classification is reached; a non-zero exit code by itself resolves the
promise and the build proceeds. -/
theorem c7_error_event_fatal (h : Helpers) (msg : String) (reads : ReadResults)
    (aux : BuildAux) :
    buildStep h (ProcOutcome.errored msg) reads aux
      = Except.error ("Unable to build your Next.js app: " ++ msg) := rfl

/-- Claim C8, counterexample: an optional manifest read fails with a parse
error (malformed JSON), yet the build step does not abort — the
`.catch(() => undefined)` wrapper swallows malformed optional manifests just
like missing ones, so "a malformed manifest aborts the whole build step"
fails as stated. -/
theorem c8_malformed_optional_counterexample :
    readsOptionalFail.appPathRoutes = Except.error "Unexpected token in JSON"
    ∧ buildStep specHelpers (ProcOutcome.exited 0) readsOptionalFail auxEmpty
        = Except.ok (classifyResult specHelpers emptyBuildInput,
            classifyReasons specHelpers emptyBuildInput) :=
  ⟨rfl, rfl⟩

/-- Claim C8 as amended: a failed read of a mandatory manifest (prerender,
pages or routes — missing or malformed) aborts the whole build step with an
error, while the optional app-paths, app-path-routes and server-reference
manifests, when their read fails (missing or malformed), are defaulted and
contribute no `route with PPR`, `non-static component` or
`route with server action` reasons. -/
theorem c8_manifest_failure_handling (h : Helpers) (c : Int) (reads : ReadResults)
    (aux : BuildAux) :
    ((reads.prerender.toOption = none ∨ reads.pages.toOption = none ∨
        reads.routes.toOption = none) →
      ∀ out, buildStep h (ProcOutcome.exited c) reads aux ≠ Except.ok out)
    ∧ (∀ res reasons, buildStep h (ProcOutcome.exited c) reads aux = Except.ok (res, reasons) →
        (reads.appPathRoutes.toOption = none →
          ∀ k, Reason.routeWithPPR k ∉ reasons ∧ Reason.nonStaticComponent k ∉ reasons ∧
            Reason.routeWithServerAction k ∉ reasons)
        ∧ (reads.appPaths.toOption = none → ∀ k, Reason.nonStaticComponent k ∉ reasons)
        ∧ (reads.serverReference.toOption = none →
            ∀ k, Reason.routeWithServerAction k ∉ reasons)) := by
  constructor
  · intro hbad out
    cases hp : reads.prerender with
    | error e => simp [buildStep, nextBuildPromise, hp, Bind.bind, Except.bind]
    | ok pm =>
      cases hg : reads.pages with
      | error e => simp [buildStep, nextBuildPromise, hp, hg, Bind.bind, Except.bind]
      | ok pg =>
        cases hr : reads.routes with
        | error e => simp [buildStep, nextBuildPromise, hp, hg, hr, Bind.bind, Except.bind]
        | ok rm =>
          rcases hbad with hbad | hbad | hbad <;>
            simp [hp, hg, hr, Except.toOption] at hbad
  · intro res reasons heq
    cases hp : reads.prerender with
    | error e => simp [buildStep, nextBuildPromise, hp, Bind.bind, Except.bind] at heq
    | ok pm =>
      cases hg : reads.pages with
      | error e => simp [buildStep, nextBuildPromise, hp, hg, Bind.bind, Except.bind] at heq
      | ok pg =>
        cases hr : reads.routes with
        | error e =>
          simp [buildStep, nextBuildPromise, hp, hg, hr, Bind.bind, Except.bind] at heq
        | ok rm =>
          simp only [buildStep, nextBuildPromise, hp, hg, hr, Bind.bind, Except.bind,
            pure, Except.pure, Except.ok.injEq, Prod.mk.injEq] at heq
          obtain ⟨-, hreasons⟩ := heq
          subst hreasons
          refine ⟨?_, ?_, ?_⟩
          · intro haprn k
            refine ⟨?_, ?_, ?_⟩
            · intro hmem
              have hx := mem_raw_routeWithPPR.1 (mem_classifyReasons.1 hmem)
              rw [appPathReasonsList_of_none haprn] at hx
              exact absurd hx (List.not_mem_nil _)
            · intro hmem
              have hx := mem_raw_nonStaticComponent.1 (mem_classifyReasons.1 hmem)
              rw [appPathReasonsList_of_none haprn] at hx
              exact absurd hx (List.not_mem_nil _)
            · intro hmem
              have hx := mem_raw_routeWithServerAction.1 (mem_classifyReasons.1 hmem)
              rw [appPathReasonsList_of_none haprn] at hx
              exact absurd hx (List.not_mem_nil _)
          · intro hapn k hmem
            obtain ⟨apm, hsome⟩ :=
              nonStaticComponent_needs_appPaths
                (mem_raw_nonStaticComponent.1 (mem_classifyReasons.1 hmem))
            rw [hapn] at hsome
            exact Option.noConfusion hsome
          · intro hsrn k hmem
            obtain ⟨srm, hsome⟩ :=
              routeWithServerAction_needs_serverReference
                (mem_raw_routeWithServerAction.1 (mem_classifyReasons.1 hmem))
            rw [hsrn] at hsome
            exact Option.noConfusion hsome

/-- Claim C8, witness: a failing mandatory read aborts the build step, and a
run whose optional reads all failed carries no reason of the three optional
kinds. -/
theorem c8_manifest_failure_witness :
    (∀ out, buildStep specHelpers (ProcOutcome.exited 0) readsMandatoryFail auxEmpty
        ≠ Except.ok out)
    ∧ (∀ k, Reason.routeWithPPR k ∉ classifyReasons specHelpers emptyBuildInput) := by
  constructor
  · exact (c8_manifest_failure_handling specHelpers 0 readsMandatoryFail auxEmpty).1
      (Or.inl rfl)
  · intro k
    exact (((c8_manifest_failure_handling specHelpers 0 readsOptionalFail auxEmpty).2
      (classifyResult specHelpers emptyBuildInput)
      (classifyReasons specHelpers emptyBuildInput) rfl).1 rfl k).1

theorem materializeEntry_revalidate_skip {h : Helpers} {inp : CodegenInput} {path : String}
    {route : PrerenderRoute} (hr : revalidateTruthy route.initialRevalidateSeconds = true) :
    materializeEntry h inp path route = [] := by
  unfold materializeEntry
  rw [if_pos hr]

theorem materializeEntry_eq_nil_of_resolve {h : Helpers} {inp : CodegenInput} {path : String}
    {route : PrerenderRoute}
    (hres : resolveArtifact inp path route = ArtifactChoice.pprSkip ∨
      resolveArtifact inp path route = ArtifactChoice.missing) :
    materializeEntry h inp path route = [] := by
  unfold materializeEntry
  rcases hres with hres | hres <;> rw [hres] <;> (repeat' split) <;>
    first
    | rfl
    | (rename_i heq; exact ArtifactChoice.noConfusion heq)

theorem resolveArtifact_skip_of_absent {inp : CodegenInput} {path : String}
    {route : PrerenderRoute}
    (h1 : inp.fileExists (entrySourcePath inp path route) = false)
    (h2 : inp.pathExists (entrySourcePath inp path route) = false)
    (h3 : inp.fileExists (entrySourcePath inp path route ++ ".body") = false)
    (hppr : path ∈ inp.pprRoutes) :
    resolveArtifact inp path route = ArtifactChoice.pprSkip ∨
      resolveArtifact inp path route = ArtifactChoice.missing := by
  unfold resolveArtifact
  rw [h1, h2, h3]
  cases hh : inp.fileExists (entrySourcePath inp path route ++ ".html")
  · right
    simp
  · left
    have hcon : inp.pprRoutes.contains path = true := by simpa using hppr
    simp [hcon, hppr]

/-- Claim C3: every prerender-manifest `dynamicRoutes` entry whose
`fallback` is not `false` contributes a `use of fallback` reason naming the
pattern (hence `wantsBackend` is true), and — the pattern being neither a
key of `prerenderManifest.routes` nor an `.html` pages-manifest entry — the
static materializer copies nothing for that pattern. -/
theorem c3_fallback_routes_backend (h : Helpers) (binp : BuildInput) (cinp : CodegenInput)
    (pattern : String) (d : DynamicRoute)
    (hmem : (pattern, d) ∈ binp.prerenderManifest.dynamicRoutes)
    (hfb : d.fallback ≠ FallbackValue.fbFalse)
    (hnoroutes : ∀ r, (pattern, r) ∉ cinp.prerenderManifest.routes)
    (hnohtml : ∀ src, (pattern, src) ∈ cinp.pagesManifest → strEndsWith src ".html" = false) :
    Reason.useOfFallback pattern ∈ classifyReasons h binp
    ∧ (classifyResult h binp).wantsBackend = true
    ∧ ∀ op ∈ materialize h cinp, op.routePath ≠ pattern := by
  have hraw : Reason.useOfFallback pattern ∈ classifyReasonsRaw h binp := by
    have hfall : Reason.useOfFallback pattern ∈ fallbackReasons binp.prerenderManifest := by
      refine List.mem_map.2 ⟨(pattern, d), List.mem_filter.2 ⟨hmem, ?_⟩, rfl⟩
      simpa using hfb
    simp only [classifyReasonsRaw, List.mem_append]
    tauto
  have hmemr : Reason.useOfFallback pattern ∈ classifyReasons h binp :=
    mem_classifyReasons.2 hraw
  refine ⟨hmemr, ?_, ?_⟩
  · simp only [classifyResult]
    exact decide_eq_true (List.length_pos.2 (List.ne_nil_of_mem hmemr))
  · refine no_op_for_path (fun route hroute => ?_)
    rcases mem_routesToCopy.1 hroute with ⟨hpm, -⟩ | hpl
    · exact absurd hpm (hnoroutes route)
    · obtain ⟨⟨src, hsrc, hhtml⟩, -⟩ := mem_pagesLike.1 hpl
      rw [hnohtml src hsrc] at hhtml
      exact Bool.noConfusion hhtml

/-- Claim C3, witness: a blocking-fallback dynamic route on an otherwise
empty project. -/
theorem c3_fallback_witness :
    Reason.useOfFallback "/blog/[slug]" ∈ classifyReasons specHelpers
      { emptyBuildInput with
        prerenderManifest :=
          { routes := [], dynamicRoutes := [("/blog/[slug]", { fallback := .blocking })] } }
    ∧ (classifyResult specHelpers
        { emptyBuildInput with
          prerenderManifest :=
            { routes := [], dynamicRoutes := [("/blog/[slug]", { fallback := .blocking })] }
        }).wantsBackend = true
    ∧ ∀ op ∈ materialize specHelpers
        { sourceDir := "app", destDir := "out", distDir := ".next", i18n := none,
          basePath := "/", siteDomains := [],
          prerenderManifest :=
            { routes := [], dynamicRoutes := [("/blog/[slug]", { fallback := .blocking })] },
          pagesManifest := [], routesManifest :=
            { headers := [], redirects := [], rewrites := NextRewrites.arr [], i18n := none },
          appPathRoutesManifest := [],
          serverReferenceManifest := { node := [], edge := [], encryptionKey := "" },
          middlewareMatchers := [], pprRoutes := [],
          fileExists := fun _ => false, pathExists := fun _ => false },
        op.routePath ≠ "/blog/[slug]" :=
  c3_fallback_routes_backend specHelpers _ _ "/blog/[slug]" { fallback := .blocking }
    (by decide) (by decide) (fun r => List.not_mem_nil _)
    (fun src hsrc => absurd hsrc (List.not_mem_nil _))

/-- A prerender-manifest record with a one-minute revalidate interval on
`/about`, whose page also appears in the pages manifest as a plain `.html`
file. -/
def revalidateRecordC4 : PrerenderRoute :=
  { srcRoute := some "/about", initialRevalidateSeconds := some 60,
    dataRoute := "/_next/data/b/about.json", experimentalPPR := false,
    prefetchDataRoute := "" }

/-- The materializer input exhibiting the pages-manifest override of a
revalidating route. -/
def codegenInputC4 : CodegenInput :=
  { sourceDir := "app", destDir := "out", distDir := ".next", i18n := none,
    basePath := "/", siteDomains := [],
    prerenderManifest := { routes := [("/about", revalidateRecordC4)], dynamicRoutes := [] },
    pagesManifest := [("/about", "pages/about.html")],
    routesManifest :=
      { headers := [], redirects := [], rewrites := NextRewrites.arr [], i18n := none },
    appPathRoutesManifest := [],
    serverReferenceManifest := { node := [], edge := [], encryptionKey := "" },
    middlewareMatchers := [], pprRoutes := [],
    fileExists := fun s => s == "app/.next/server/pages/about.html",
    pathExists := fun _ => false }

/-- Claim C4, counterexample: `/about` has a truthy revalidate interval in
`prerenderManifest.routes`, yet the materializer does copy its artifact —
the `.html` pages-manifest entry overrides the prerender record in
`routesToCopy`, so "the static materializer skips copying that route's
artifact" fails as stated. -/
theorem c4_revalidate_copied_counterexample :
    revalidateTruthy revalidateRecordC4.initialRevalidateSeconds = true
    ∧ ("/about", revalidateRecordC4) ∈ codegenInputC4.prerenderManifest.routes
    ∧ ((materialize specHelpers codegenInputC4).any
        (fun op => op.routePath == "/about")) = true := by
  decide

/-- Claim C4 as amended: every `prerenderManifest.routes` entry with a
truthy `initialRevalidateSeconds` contributes a `use of revalidate` reason
naming its `srcRoute` (hence `wantsBackend` is true), and — provided the
route is not also a pages-manifest entry mapping to an `.html` file (which
would override its record) — the static materializer copies nothing for that
route. -/
theorem c4_revalidate_routes_backend (h : Helpers) (binp : BuildInput) (cinp : CodegenInput)
    (path : String) (r : PrerenderRoute)
    (hmem : (path, r) ∈ binp.prerenderManifest.routes)
    (hr : revalidateTruthy r.initialRevalidateSeconds = true)
    (hall : ∀ r2, (path, r2) ∈ cinp.prerenderManifest.routes →
      revalidateTruthy r2.initialRevalidateSeconds = true)
    (hnohtml : ∀ src, (path, src) ∈ cinp.pagesManifest → strEndsWith src ".html" = false) :
    Reason.useOfRevalidate r.srcRoute ∈ classifyReasons h binp
    ∧ (classifyResult h binp).wantsBackend = true
    ∧ ∀ op ∈ materialize h cinp, op.routePath ≠ path := by
  have hraw : Reason.useOfRevalidate r.srcRoute ∈ classifyReasonsRaw h binp := by
    have hrev : Reason.useOfRevalidate r.srcRoute ∈ revalidateReasons binp.prerenderManifest :=
      List.mem_map.2 ⟨(path, r), List.mem_filter.2 ⟨hmem, hr⟩, rfl⟩
    simp only [classifyReasonsRaw, List.mem_append]
    tauto
  have hmemr : Reason.useOfRevalidate r.srcRoute ∈ classifyReasons h binp :=
    mem_classifyReasons.2 hraw
  refine ⟨hmemr, ?_, ?_⟩
  · simp only [classifyResult]
    exact decide_eq_true (List.length_pos.2 (List.ne_nil_of_mem hmemr))
  · refine no_op_for_path (fun route hroute => ?_)
    rcases mem_routesToCopy.1 hroute with ⟨hpm, -⟩ | hpl
    · exact materializeEntry_revalidate_skip (hall route hpm)
    · obtain ⟨⟨src, hsrc, hhtml⟩, -⟩ := mem_pagesLike.1 hpl
      rw [hnohtml src hsrc] at hhtml
      exact Bool.noConfusion hhtml

/-- Claim C4, witness: a revalidating route with no pages-manifest override
is classified for the backend and left out of the static copy. -/
theorem c4_revalidate_witness :
    Reason.useOfRevalidate (some "/about") ∈ classifyReasons specHelpers
      { emptyBuildInput with
        prerenderManifest := { routes := [("/about", revalidateRecordC4)], dynamicRoutes := [] } }
    ∧ (classifyResult specHelpers
        { emptyBuildInput with
          prerenderManifest :=
            { routes := [("/about", revalidateRecordC4)], dynamicRoutes := [] } }).wantsBackend
          = true
    ∧ ∀ op ∈ materialize specHelpers { codegenInputC4 with pagesManifest := [] },
        op.routePath ≠ "/about" :=
  c4_revalidate_routes_backend specHelpers _ _ "/about" revalidateRecordC4
    (by decide) (by decide)
    (by
      intro r2 hr2
      have hone := List.mem_singleton.1 hr2
      rw [Prod.mk.injEq] at hone
      rw [hone.2]
      decide)
    (fun src hsrc => absurd hsrc (List.not_mem_nil _))

/-- Claim C6: every route reported by the app metadata as using partial
pre-rendering contributes a `route with PPR` reason (hence `wantsBackend` is
true), and — its exact-path and `.body` artifacts being absent, as for an
app-router page whose only rendered artifact is the `.html` document — the
static materializer copies nothing for that route. -/
theorem c6_ppr_routes_backend (h : Helpers) (binp : BuildInput) (cinp : CodegenInput)
    (path : String) (aprm : List (String × String))
    (haprm : binp.appPathRoutesManifest = some aprm)
    (hppr : path ∈ binp.appMetadata.pprRoutes)
    (hpprc : path ∈ cinp.pprRoutes)
    (hfiles : ∀ route : PrerenderRoute, (path, route) ∈ routesToCopy cinp →
      cinp.fileExists (entrySourcePath cinp path route) = false
      ∧ cinp.pathExists (entrySourcePath cinp path route) = false
      ∧ cinp.fileExists (entrySourcePath cinp path route ++ ".body") = false) :
    Reason.routeWithPPR path ∈ classifyReasons h binp
    ∧ (classifyResult h binp).wantsBackend = true
    ∧ ∀ op ∈ materialize h cinp, op.routePath ≠ path := by
  have happ : Reason.routeWithPPR path ∈ appPathReasonsList h binp := by
    unfold appPathReasonsList
    rw [haprm]
    exact List.mem_append.2
      (Or.inl (List.mem_append.2 (Or.inl (List.mem_map.2 ⟨path, hppr, rfl⟩))))
  have hraw : Reason.routeWithPPR path ∈ classifyReasonsRaw h binp := by
    simp only [classifyReasonsRaw, List.mem_append]
    tauto
  have hmemr : Reason.routeWithPPR path ∈ classifyReasons h binp :=
    mem_classifyReasons.2 hraw
  refine ⟨hmemr, ?_, ?_⟩
  · simp only [classifyResult]
    exact decide_eq_true (List.length_pos.2 (List.ne_nil_of_mem hmemr))
  · refine no_op_for_path (fun route hroute => ?_)
    obtain ⟨h1, h2, h3⟩ := hfiles route hroute
    exact materializeEntry_eq_nil_of_resolve (resolveArtifact_skip_of_absent h1 h2 h3 hpprc)

/-- The prerender record of the partial-pre-rendering route `/dash`. -/
def pprRouteRecordC6 : PrerenderRoute :=
  { srcRoute := some "/dash", initialRevalidateSeconds := none, dataRoute := "",
    experimentalPPR := true, prefetchDataRoute := "" }

/-- The materializer input of the C6 witness. -/
def codegenInputC6 : CodegenInput :=
  { sourceDir := "app", destDir := "out", distDir := ".next", i18n := none,
    basePath := "/", siteDomains := [],
    prerenderManifest := { routes := [("/dash", pprRouteRecordC6)], dynamicRoutes := [] },
    pagesManifest := [],
    routesManifest :=
      { headers := [], redirects := [], rewrites := NextRewrites.arr [], i18n := none },
    appPathRoutesManifest := [("/dash/page", "/dash")],
    serverReferenceManifest := { node := [], edge := [], encryptionKey := "" },
    middlewareMatchers := [], pprRoutes := ["/dash"],
    fileExists := fun _ => false, pathExists := fun _ => false }

/-- Claim C6, witness: a partial-pre-rendering app route is classified for
the backend and excluded from static copy. -/
theorem c6_ppr_witness :
    Reason.routeWithPPR "/dash" ∈ classifyReasons specHelpers
      { emptyBuildInput with
        appPathRoutesManifest := some [("/dash/page", "/dash")],
        appMetadata := { headers := [], pprRoutes := ["/dash"] } }
    ∧ (classifyResult specHelpers
        { emptyBuildInput with
          appPathRoutesManifest := some [("/dash/page", "/dash")],
          appMetadata := { headers := [], pprRoutes := ["/dash"] } }).wantsBackend = true
    ∧ ∀ op ∈ materialize specHelpers codegenInputC6, op.routePath ≠ "/dash" :=
  c6_ppr_routes_backend specHelpers _ codegenInputC6 "/dash" [("/dash/page", "/dash")]
    rfl (by decide) (by decide) (fun route hroute => ⟨rfl, rfl, rfl⟩)

theorem localeOf_i18n_none {inp : CodegenInput} {path : String} (hi : inp.i18n = none) :
    localeOf inp path = none := by
  unfold localeOf
  rw [hi]

theorem includeB_i18n_none {inp : CodegenInput} {path : String} (hi : inp.i18n = none) :
    includeOnThisDomainB inp path = true := by
  unfold includeOnThisDomainB
  rw [localeOf_i18n_none hi]

theorem localizedDest_i18n_none {inp : CodegenInput} {path : String} (hi : inp.i18n = none) :
    localizedDestPathOf inp path = none := by
  unfold localizedDestPathOf
  rw [localeOf_i18n_none hi]

theorem isDefault_i18n_none {inp : CodegenInput} {path : String} (hi : inp.i18n = none) :
    isDefaultLocaleB inp path = true := by
  unfold isDefaultLocaleB
  rw [localeOf_i18n_none hi]

theorem resolveArtifact_htmlDoc {inp : CodegenInput} {path : String} {route : PrerenderRoute}
    (hex : inp.fileExists (entrySourcePath inp path route) = false)
    (hexh : inp.fileExists (entrySourcePath inp path route ++ ".html") = true)
    (hpprn : path ∉ inp.pprRoutes) :
    resolveArtifact inp path route = ArtifactChoice.htmlDoc := by
  unfold resolveArtifact
  rw [hex, hexh]
  have hcon : inp.pprRoutes.contains path = false := by simpa using hpprn
  simp [hcon, hpprn]

theorem materializeEntry_htmlDoc {h : Helpers} {inp : CodegenInput} {path : String}
    {route : PrerenderRoute}
    (hrev : revalidateTruthy route.initialRevalidateSeconds = false)
    (hmatch : ((pathsUnsupported h inp).any (fun re => h.regexTest re path)) = false)
    (hact : ((serverActionRoutes h inp).any (fun it => path == it)) = false)
    (hinc : includeOnThisDomainB inp path = true)
    (hres : resolveArtifact inp path route = ArtifactChoice.htmlDoc) :
    materializeEntry h inp path route =
      docOps inp path (entrySourcePath inp path route ++ ".html") ".html"
        ++ dataOps inp path route := by
  unfold materializeEntry
  simp [hrev, hmatch, hact, hinc, hres]

/-- Claim C10: a route path present both in `prerenderManifest.routes` and
as an `.html` pages-manifest entry enters `routesToCopy` only under the
pages-manifest-derived record (no `srcRoute`, `initialRevalidateSeconds`
false, empty `dataRoute`); consequently, when its document artifact exists
and no other skip applies, the materializer copies its document even though
the prerender entry may carry a revalidate interval, and copies no data
artifact for it. -/
theorem c10_pages_manifest_override (h : Helpers) (cinp : CodegenInput)
    (path srcFile : String)
    (hpg : (path, srcFile) ∈ cinp.pagesManifest)
    (hhtml : strEndsWith srcFile ".html" = true)
    (hi : cinp.i18n = none)
    (hmatch : ((pathsUnsupported h cinp).any (fun re => h.regexTest re path)) = false)
    (hact : ((serverActionRoutes h cinp).any (fun it => path == it)) = false)
    (hpprn : path ∉ cinp.pprRoutes)
    (hex : cinp.fileExists (entrySourcePath cinp path pagesLikeRecord) = false)
    (hexh : cinp.fileExists (entrySourcePath cinp path pagesLikeRecord ++ ".html") = true) :
    (∀ r, (path, r) ∈ routesToCopy cinp → r = pagesLikeRecord)
    ∧ (∃ op ∈ materialize h cinp, op.routePath = path ∧ op.kind = CopyKind.doc)
    ∧ (∀ op ∈ materialize h cinp, op.routePath = path → op.kind ≠ CopyKind.routeData) := by
  have hplmem : (path, pagesLikeRecord) ∈ pagesManifestLikePrerender cinp.pagesManifest :=
    mem_pagesLike.2 ⟨⟨srcFile, hpg, hhtml⟩, rfl⟩
  have hmm2 : path ∈ (pagesManifestLikePrerender cinp.pagesManifest).map Prod.fst :=
    List.mem_map.2 ⟨(path, pagesLikeRecord), hplmem, rfl⟩
  have hkey : ((pagesManifestLikePrerender cinp.pagesManifest).map Prod.fst).contains path
      = true := by
    simpa using hmm2
  have hover : ∀ r, (path, r) ∈ routesToCopy cinp → r = pagesLikeRecord := by
    intro r hr
    rcases mem_routesToCopy.1 hr with ⟨-, hcon⟩ | hb
    · rw [hkey] at hcon
      exact Bool.noConfusion hcon
    · exact (mem_pagesLike.1 hb).2
  have hentry : materializeEntry h cinp path pagesLikeRecord =
      docOps cinp path (entrySourcePath cinp path pagesLikeRecord ++ ".html") ".html"
        ++ dataOps cinp path pagesLikeRecord :=
    materializeEntry_htmlDoc rfl hmatch hact (includeB_i18n_none hi)
      (resolveArtifact_htmlDoc hex hexh hpprn)
  have hdata : dataOps cinp path pagesLikeRecord = [] := by
    unfold dataOps
    simp [pagesLikeRecord]
  have hdoc : docOps cinp path (entrySourcePath cinp path pagesLikeRecord ++ ".html") ".html" =
      [{ routePath := path, src := entrySourcePath cinp path pagesLikeRecord ++ ".html",
         dest := jsJoin ([cinp.destDir, cinp.basePath] ++ destPartsOrIndexOf cinp path)
           ++ ".html",
         kind := CopyKind.doc }] := by
    unfold docOps
    rw [localizedDest_i18n_none hi]
    unfold defaultDestPathOf
    rw [isDefault_i18n_none hi]
    simp
  have hmemrtc : (path, pagesLikeRecord) ∈ routesToCopy cinp :=
    mem_routesToCopy.2 (Or.inr hplmem)
  refine ⟨hover, ?_, ?_⟩
  · refine ⟨CopyOp.mk path (entrySourcePath cinp path pagesLikeRecord ++ ".html")
      (jsJoin ([cinp.destDir, cinp.basePath] ++ destPartsOrIndexOf cinp path) ++ ".html")
      CopyKind.doc, ?_, rfl, rfl⟩
    refine mem_materialize.2 ⟨path, pagesLikeRecord, hmemrtc, ?_⟩
    rw [hentry, hdata, hdoc]
    simp
  · intro op hop hpath
    rcases mem_materialize.1 hop with ⟨p, r, hpr, hin⟩
    have hpp : op.routePath = p := materializeEntry_routePath hin
    have hppath : p = path := by rw [← hpp, hpath]
    subst hppath
    have hrrec := hover r hpr
    subst hrrec
    rw [hentry, hdata, List.append_nil, hdoc] at hin
    have hopeq := List.mem_singleton.1 hin
    rw [hopeq]
    simp

/-- Claim C10, witness: the `/about` route of `codegenInputC4` — a
revalidating prerender entry overridden by an `.html` pages-manifest entry —
is copied as a document and gets no data copy. -/
theorem c10_pages_override_witness :
    (∀ r, ("/about", r) ∈ routesToCopy codegenInputC4 → r = pagesLikeRecord)
    ∧ (∃ op ∈ materialize specHelpers codegenInputC4,
        op.routePath = "/about" ∧ op.kind = CopyKind.doc)
    ∧ (∀ op ∈ materialize specHelpers codegenInputC4,
        op.routePath = "/about" → op.kind ≠ CopyKind.routeData) :=
  c10_pages_manifest_override specHelpers codegenInputC4 "/about" "pages/about.html"
    (by decide) (by decide) rfl (by decide) (by decide) (by decide) (by decide) (by decide)

theorem i18n_some_of_matching {inp : CodegenInput} {d : DomainLocale}
    (hd : matchingI18nDomain inp = some d) : ∃ i, inp.i18n = some i := by
  unfold matchingI18nDomain at hd
  cases hi : inp.i18n with
  | none => rw [hi] at hd; exact Option.noConfusion hd
  | some i => exact ⟨i, rfl⟩

theorem singleLocale_false {inp : CodegenInput} {d : DomainLocale} {ls : List String}
    (hd : matchingI18nDomain inp = some d) (hls : d.locales = some ls)
    (hlen : 2 ≤ ls.length) : singleLocaleDomain inp = false := by
  obtain ⟨i, hi⟩ := i18n_some_of_matching hd
  have hres : resolvedDomainLocales inp = ls := by
    simp [resolvedDomainLocales, hd, hls]
  unfold singleLocaleDomain
  rw [hi, hres]
  simp only [decide_eq_false_iff_not]
  omega

theorem include_false_of_absent {inp : CodegenInput} {path : String} {d : DomainLocale}
    {ls : List String} {l : String}
    (hl : localeOf inp path = some l) (hd : matchingI18nDomain inp = some d)
    (hls : d.locales = some ls) (hdef : d.defaultLocale ∈ ls) (habs : l ∉ ls) :
    includeOnThisDomainB inp path = false := by
  have hne : d.defaultLocale ≠ l := fun he => habs (he ▸ hdef)
  unfold includeOnThisDomainB
  rw [hl, hd]
  simp [hls, hne, habs]

theorem materializeEntry_include_skip {h : Helpers} {inp : CodegenInput} {path : String}
    {route : PrerenderRoute} (hinc : includeOnThisDomainB inp path = false) :
    materializeEntry h inp path route = [] := by
  unfold materializeEntry
  simp [hinc]

theorem localizedDest_of_locale {inp : CodegenInput} {path : String} {l : String}
    (hl : localeOf inp path = some l) (hsingle : singleLocaleDomain inp = false) :
    localizedDestPathOf inp path =
      some (jsJoin ([inp.destDir, I18N_ROOT, l, inp.basePath]
        ++ destPartsOrIndexOf inp path)) := by
  unfold localizedDestPathOf
  rw [hl, hsingle]
  simp

theorem defaultDest_none_of_nondefault {inp : CodegenInput} {path : String} {l : String}
    {d : DomainLocale}
    (hl : localeOf inp path = some l) (hd : matchingI18nDomain inp = some d)
    (hne : d.defaultLocale ≠ l) : defaultDestPathOf inp path = none := by
  unfold defaultDestPathOf isDefaultLocaleB
  rw [hl, hd]
  simp [hne]

theorem defaultDest_some_of_default {inp : CodegenInput} {path : String} {l : String}
    {d : DomainLocale}
    (hl : localeOf inp path = some l) (hd : matchingI18nDomain inp = some d)
    (heq : d.defaultLocale = l) :
    defaultDestPathOf inp path =
      some (jsJoin ([inp.destDir, inp.basePath] ++ destPartsOrIndexOf inp path)) := by
  unfold defaultDestPathOf isDefaultLocaleB
  rw [hl, hd]
  simp [heq]

theorem mem_docOps {inp : CodegenInput} {path src ext : String} {op : CopyOp}
    (hop : op ∈ docOps inp path src ext) :
    ∃ b, (localizedDestPathOf inp path = some b ∨ defaultDestPathOf inp path = some b)
      ∧ op = { routePath := path, src := src, dest := b ++ ext, kind := CopyKind.doc } := by
  unfold docOps at hop
  rcases List.mem_append.1 hop with h1 | h1
  · cases hL : localizedDestPathOf inp path <;> rw [hL] at h1 <;> simp at h1
    exact ⟨_, Or.inl rfl, h1⟩
  · cases hD : defaultDestPathOf inp path <;> rw [hD] at h1 <;> simp at h1
    exact ⟨_, Or.inr rfl, h1⟩

theorem materializeEntry_cases (h : Helpers) (inp : CodegenInput) (path : String)
    (route : PrerenderRoute) :
    materializeEntry h inp path route = [] ∨
    ∃ src ext, (ext = "" ∨ ext = ".html")
      ∧ materializeEntry h inp path route = docOps inp path src ext ++ dataOps inp path route := by
  unfold materializeEntry
  repeat' split
  all_goals
    first
    | exact Or.inl rfl
    | exact Or.inr ⟨_, _, by simp, rfl⟩

theorem materializeEntry_doc_shape {h : Helpers} {inp : CodegenInput} {path : String}
    {route : PrerenderRoute} {op : CopyOp}
    (hop : op ∈ materializeEntry h inp path route) (hkind : op.kind = CopyKind.doc) :
    ∃ b ext, (ext = "" ∨ ext = ".html")
      ∧ (localizedDestPathOf inp path = some b ∨ defaultDestPathOf inp path = some b)
      ∧ op.dest = b ++ ext := by
  rcases materializeEntry_cases h inp path route with hnil | ⟨src, ext, hext, hentry⟩
  · rw [hnil] at hop
    exact absurd hop (List.not_mem_nil op)
  · rw [hentry] at hop
    rcases List.mem_append.1 hop with h1 | h1
    · obtain ⟨b, hb, heq⟩ := mem_docOps h1
      exact ⟨b, ext, hext, hb, by rw [heq]⟩
    · rw [dataOps_kind h1] at hkind
      exact CopyKind.noConfusion hkind

theorem default_op_mem_docOps {inp : CodegenInput} {path src ext b : String}
    (hb : defaultDestPathOf inp path = some b) :
    ({ routePath := path, src := src, dest := b ++ ext, kind := CopyKind.doc } : CopyOp)
      ∈ docOps inp path src ext := by
  unfold docOps
  rw [hb]
  exact List.mem_append.2 (Or.inr (List.mem_singleton.2 rfl))

/-- Claim C5: with i18n domains configured and a domain mapping matching one
of the deploy site's domains (carrying a locale subset that contains its own
default locale and at least two locales), for every `routesToCopy` entry
whose path carries a locale prefix: a locale absent from the mapping's
subset is never materialized; a materialized non-default locale's document
goes only under the locale-root-prefixed destination; and whenever a
default-locale-prefixed document is materialized at all, a copy of it is
placed at the output root. -/
theorem c5_locale_domain_materialization (h : Helpers) (cinp : CodegenInput)
    (d : DomainLocale) (ls : List String) (path : String) (route : PrerenderRoute)
    (l : String)
    (hd : matchingI18nDomain cinp = some d)
    (hls : d.locales = some ls)
    (hdef : d.defaultLocale ∈ ls)
    (hlen : 2 ≤ ls.length)
    (hl : localeOf cinp path = some l) :
    (l ∉ ls → materializeEntry h cinp path route = [])
    ∧ (l ∈ ls → d.defaultLocale ≠ l →
        ∀ op ∈ materializeEntry h cinp path route, op.kind = CopyKind.doc →
          ∃ ext, (ext = "" ∨ ext = ".html") ∧
            op.dest = jsJoin ([cinp.destDir, I18N_ROOT, l, cinp.basePath]
              ++ destPartsOrIndexOf cinp path) ++ ext)
    ∧ (d.defaultLocale = l →
        (∃ op ∈ materializeEntry h cinp path route, op.kind = CopyKind.doc) →
          ∃ op ∈ materializeEntry h cinp path route, op.kind = CopyKind.doc ∧
            ∃ ext, (ext = "" ∨ ext = ".html") ∧
              op.dest = jsJoin ([cinp.destDir, cinp.basePath]
                ++ destPartsOrIndexOf cinp path) ++ ext) := by
  have hsingle : singleLocaleDomain cinp = false := singleLocale_false hd hls hlen
  refine ⟨?_, ?_, ?_⟩
  · intro habs
    exact materializeEntry_include_skip (include_false_of_absent hl hd hls hdef habs)
  · intro hmeml hne op hop hkind
    obtain ⟨b, ext, hext, hb, hdest⟩ := materializeEntry_doc_shape hop hkind
    rcases hb with hb | hb
    · rw [localizedDest_of_locale hl hsingle] at hb
      exact ⟨ext, hext, by rw [hdest, ← Option.some_inj.1 hb]⟩
    · rw [defaultDest_none_of_nondefault hl hd hne] at hb
      exact Option.noConfusion hb
  · intro hdefl hex
    obtain ⟨op0, hop0, hkind0⟩ := hex
    rcases materializeEntry_cases h cinp path route with hnil | ⟨src, ext, hext, hentry⟩
    · rw [hnil] at hop0
      exact absurd hop0 (List.not_mem_nil op0)
    · have hb := defaultDest_some_of_default hl hd hdefl
      refine ⟨CopyOp.mk path src
        (jsJoin ([cinp.destDir, cinp.basePath] ++ destPartsOrIndexOf cinp path) ++ ext)
        CopyKind.doc, ?_, rfl, ext, hext, rfl⟩
      rw [hentry]
      exact List.mem_append.2 (Or.inl (default_op_mem_docOps hb))

/-- The `a.com` domain mapping of the C5 witness, restricted to `en`/`fr`
with default `en`. -/
def domainC5 : DomainLocale :=
  { domain := "a.com", defaultLocale := "en", locales := some ["en", "fr"] }

/-- The i18n configuration of the C5 witness: three configured locales and
the `a.com` domain mapping. -/
def i18nC5 : I18nConfig :=
  { locales := ["en", "fr", "de"], defaultLocale := "en", domains := some [domainC5] }

/-- The materializer input of the C5 witness, deploying to `a.com`. -/
def codegenInputC5 : CodegenInput :=
  { sourceDir := "app", destDir := "out", distDir := ".next", i18n := some i18nC5,
    basePath := "/", siteDomains := ["a.com"],
    prerenderManifest := { routes := [("/de/about", pagesLikeRecord)], dynamicRoutes := [] },
    pagesManifest := [],
    routesManifest :=
      { headers := [], redirects := [], rewrites := NextRewrites.arr [], i18n := some i18nC5 },
    appPathRoutesManifest := [],
    serverReferenceManifest := { node := [], edge := [], encryptionKey := "" },
    middlewareMatchers := [], pprRoutes := [],
    fileExists := fun _ => false, pathExists := fun _ => false }

/-- Claim C5, witness: on the `a.com` deploy, the `de`-prefixed route — a
locale outside the domain's `en`/`fr` subset — is never materialized, and
the destination characterizations hold for the `de` prefix. -/
theorem c5_locale_domain_witness :
    ("de" ∉ ["en", "fr"] →
      materializeEntry specHelpers codegenInputC5 "/de/about" pagesLikeRecord = [])
    ∧ ("de" ∈ ["en", "fr"] → "en" ≠ "de" →
        ∀ op ∈ materializeEntry specHelpers codegenInputC5 "/de/about" pagesLikeRecord,
          op.kind = CopyKind.doc →
          ∃ ext, (ext = "" ∨ ext = ".html") ∧
            op.dest = jsJoin (["out", I18N_ROOT, "de", "/"]
              ++ destPartsOrIndexOf codegenInputC5 "/de/about") ++ ext)
    ∧ ("en" = "de" →
        (∃ op ∈ materializeEntry specHelpers codegenInputC5 "/de/about" pagesLikeRecord,
          op.kind = CopyKind.doc) →
          ∃ op ∈ materializeEntry specHelpers codegenInputC5 "/de/about" pagesLikeRecord,
            op.kind = CopyKind.doc ∧
            ∃ ext, (ext = "" ∨ ext = ".html") ∧
              op.dest = jsJoin (["out", "/"]
                ++ destPartsOrIndexOf codegenInputC5 "/de/about") ++ ext) :=
  c5_locale_domain_materialization specHelpers codegenInputC5 domainC5
    ["en", "fr"] "/de/about" pagesLikeRecord "de"
    rfl rfl (by decide) (by decide) rfl

end NextAdapter
